import Mathlib

/-!
# Greyscale / sepia PPM filter (`prog2.c`)

A shallow embedding of `prog2.c` and theorems about it.

## Arithmetic model

The pixel formulas of `prog2.c` are written with `double` literals and `double`
multiplication and addition, and the result is converted to an integer type by
truncation.  The embedding follows IEEE 754 binary64 arithmetic exactly: every
literal, product and sum is rounded to a 53-bit significand, round-to-nearest,
ties-to-even, one rounding per operation, operations in the order the C
expression parses (`(a*R + b*G) + c*B`).

All values that occur are non-negative, below `2^10`, and are integer multiples
of `2^-56` (the smallest literal, `.114`, lies in `[2^-4, 2^-3)`, so its unit in
the last place is `2^-56`).  A value is therefore carried as the natural number
`x` that stands for the real number `x / 2^56`.

## Integer arithmetic

An `int` has 32 bits.  C leaves signed overflow and an `atoi` result that does
not fit undefined; compiled code keeps the low 32 bits, and that is what the
embedding does (`wrapInt`), so that a run on a header such as `65536 x 65536`
is followed as it happens.

## Input and output

`main` is a function of the command line and the bytes of standard input; its
result records the exit status, the bytes written to standard output, the text
written to standard error and the unread rest of standard input.  The header
record type and the functions `readHeader` and `smalloc` are declared in
`header.h` and `safe.h`, outside `prog2.c`; they enter through `Env`.
-/

set_option maxRecDepth 100000

namespace Prog2

/-! ## Bytes -/

/-- An `unsigned char`: an integer in `0..255`. -/
abbrev Byte := Fin 256

/-! ## IEEE 754 binary64 on the fixed-point carrier -/

/-- Number of fractional bits of the carrier: `x : Nat` stands for `x / 2^56`. -/
def FRAC_BITS : Nat := 56

/-- The carrier value of the integer one. -/
def ONE : Nat := 2 ^ FRAC_BITS

/-- Number of significand bits of a binary64 value. -/
def MANT_BITS : Nat := 53

/-- Number of binary digits of `x`, counted by halving at most `fuel` times. -/
def bitLengthAux : Nat → Nat → Nat
  | 0, _ => 0
  | fuel + 1, x => if x = 0 then 0 else bitLengthAux fuel (x / 2) + 1

/-- Number of binary digits of `x` (`0` for `x = 0`).  Every value of the
program, the scaled quotient inside `dlit` included, is below `2^128`, so 128
halvings suffice. -/
def bitLength (x : Nat) : Nat := bitLengthAux 128 x

/-- Round a natural number to 53 significant bits, round-to-nearest, ties-to-even.
With `sh` the number of bits to drop, `x = q * 2^sh + r`; the result is
`q * 2^sh` or `(q + 1) * 2^sh`, whichever is nearer, and the one with even `q`
on a tie.  (Exponent range is no concern: every value of the program is between
`2^-56` and `2^10`.) -/
def roundDouble (x : Nat) : Nat :=
  if bitLength x ≤ MANT_BITS then x
  else
    let sh := bitLength x - MANT_BITS
    let q := x / 2 ^ sh
    let r := x % 2 ^ sh
    let half := 2 ^ (sh - 1)
    if r < half then q * 2 ^ sh
    else if half < r then (q + 1) * 2 ^ sh
    else if q % 2 = 0 then q * 2 ^ sh
    else (q + 1) * 2 ^ sh

/-- Number of guard bits used when a decimal literal is converted. -/
def GUARD_BITS : Nat := 64

/-- The binary64 value of the decimal literal `num / den` (for example `.299`
is `dlit 299 1000`): the quotient is taken with `GUARD_BITS` extra bits and a
sticky bit for a non-zero remainder, rounded to 53 bits, and brought back to the
carrier scale. -/
def dlit (num den : Nat) : Nat :=
  let t := num * 2 ^ (FRAC_BITS + GUARD_BITS)
  let sticky := if t % den = 0 then 0 else 1
  roundDouble (2 * (t / den) + sticky) / 2 ^ (GUARD_BITS + 1)

/-- The `double` product `c * v` of a `double` `c` and a pixel channel `v`
(an `unsigned char` promoted to `int` and converted to `double` exactly). -/
def dmul (c : Nat) (v : Nat) : Nat := roundDouble (c * v)

/-- The `double` sum `x + y`. -/
def dadd (x y : Nat) : Nat := roundDouble (x + y)

/-- Conversion of a non-negative `double` to an integer: the fraction is
discarded. -/
def dtrunc (x : Nat) : Nat := x / ONE

/-- Narrowing of an integer to a signed 8-bit `char`, wrapping modulo `2^8`
into `-128..127`.  (C leaves the conversion of a `double` of 128 or more to a
signed `char` undefined; compilers for two's-complement machines convert to
`int` and keep the low eight bits, which is what is modelled.) -/
def toSChar (v : Int) : Int := (v + 128) % 256 - 128

/-- Conversion of an integer to `unsigned char`: reduction modulo `2^8`. -/
def toUChar (v : Int) : Byte := ⟨(v % 256).toNat, by omega⟩

/-! ## The pixel transforms -/

/-- The right-hand side of the assignment to `pixelGrey`:
`(.299 * pixelRGB[0]) + (.587 * pixelRGB[1]) + (.114 * pixelRGB[2])` as a `double`. -/
def greyLuma (r g b : Byte) : Nat :=
  dadd (dadd (dmul (dlit 299 1000) r.val) (dmul (dlit 587 1000) g.val))
    (dmul (dlit 114 1000) b.val)

/-- The value of `char pixelGrey` after the assignment: the luma truncated to an
integer and narrowed to a signed 8-bit `char`. -/
def pixelGrey (r g b : Byte) : Int := toSChar (dtrunc (greyLuma r g b))

/-- One iteration of the loop of `convertToGreyscale`: reads `in[3i..3i+2]` and
assigns `out[i] = pixelGrey`. -/
def greyStep (inp : List Byte) (out : List Byte) (i : Nat) : List Byte :=
  out.set i (toUChar (pixelGrey (inp.getD (i * 3) 0) (inp.getD (i * 3 + 1) 0)
    (inp.getD (i * 3 + 2) 0)))

/-- The function `convertToGreyscale(in, out, size)`: the loop
`for (i = 0; i < size; i++)` run on the output buffer; the result is the output
buffer after the call.  The input buffer is only read. -/
def convertToGreyscale (inp : List Byte) (out : List Byte) (size : Nat) : List Byte :=
  (List.range size).foldl (greyStep inp) out

/-- The `int sepiaR`, `sepiaG` or `sepiaB` right after its first assignment: the
weighted sum with the `double` weights `a`, `b`, `c`, truncated to an integer. -/
def sepiaRaw (a b c : Nat) (r g bl : Byte) : Int :=
  dtrunc (dadd (dadd (dmul a r.val) (dmul b g.val)) (dmul c bl.val))

/-- The statement `sepiaX = sepiaX > 255 ? 255 : sepiaX`. -/
def clamp255 (v : Int) : Int := if v > 255 then 255 else v

/-- The final value of `sepiaR`:
`(.393 * pixelRGB[0]) + (.769 * pixelRGB[1]) + (.189 * pixelRGB[2])`, clamped. -/
def sepiaR (r g b : Byte) : Int :=
  clamp255 (sepiaRaw (dlit 393 1000) (dlit 769 1000) (dlit 189 1000) r g b)

/-- The final value of `sepiaG`:
`(.349 * pixelRGB[0]) + (.686 * pixelRGB[1]) + (.168 * pixelRGB[2])`, clamped. -/
def sepiaG (r g b : Byte) : Int :=
  clamp255 (sepiaRaw (dlit 349 1000) (dlit 686 1000) (dlit 168 1000) r g b)

/-- The final value of `sepiaB`:
`(.272 * pixelRGB[0]) + (.534 * pixelRGB[1]) + (.131 * pixelRGB[2])`, clamped. -/
def sepiaB (r g b : Byte) : Int :=
  clamp255 (sepiaRaw (dlit 272 1000) (dlit 534 1000) (dlit 131 1000) r g b)

/-- One iteration of the loop of `convertToSepia`: reads `in[3i..3i+2]` and
assigns `pixelSepia[0]`, `pixelSepia[1]`, `pixelSepia[2]`, that is
`out[3i]`, `out[3i+1]`, `out[3i+2]`. -/
def sepiaStep (inp : List Byte) (out : List Byte) (i : Nat) : List Byte :=
  let r := inp.getD (i * 3) 0
  let g := inp.getD (i * 3 + 1) 0
  let b := inp.getD (i * 3 + 2) 0
  ((out.set (i * 3) (toUChar (sepiaR r g b))).set (i * 3 + 1) (toUChar (sepiaG r g b))).set
    (i * 3 + 2) (toUChar (sepiaB r g b))

/-- The function `convertToSepia(in, out, size)`: the loop
`for (i = 0; i < size; i++)` run on the output buffer; the result is the output
buffer after the call.  The input buffer is only read. -/
def convertToSepia (inp : List Byte) (out : List Byte) (size : Nat) : List Byte :=
  (List.range size).foldl (sepiaStep inp) out

/-! ## The program -/

/-- The macro `GREY_PARAM`. -/
def GREY_PARAM : Int := 1
/-- The macro `SEPIA_PARAM`. -/
def SEPIA_PARAM : Int := 2
/-- The macro `PPM_COLOR_VERSION`. -/
def PPM_COLOR_VERSION : Nat := 6
/-- The macro `COLOR_MAGIC_NUM`, the tag written in front of greyscale output. -/
def COLOR_MAGIC_NUM : String := "P5"
/-- The macro `SEPIA_MAGIC_NUM`, the tag written in front of sepia output. -/
def SEPIA_MAGIC_NUM : String := "P6"
/-- The macro `HEADER_ERROR`. -/
def HEADER_ERROR : Nat := 1
/-- The macro `VERSION_ERROR`. -/
def VERSION_ERROR : Nat := 2
/-- The macro `PARAM_ERROR`. -/
def PARAM_ERROR : Nat := 3
/-- The macro `CORRUPT_ERROR`. -/
def CORRUPT_ERROR : Nat := 4
/-- The macro `EXIT_SUCCESS` of `stdlib.h`. -/
def EXIT_SUCCESS : Nat := 0
/-- The macro `USAGE` (the backslash-newline pairs of the source splice the
three lines into one string literal). -/
def USAGE : String :=
  "Usage: prog2 <1|2>\n                1 - convert to greyscale\n                2 - convert to sepia.\n"
/-- The largest value of a 32-bit `int`. -/
def INT_MAX : Nat := 2147483647
/-- The largest value of a 64-bit `long`. -/
def LONG_MAX : Int := 9223372036854775807

/-- An integer brought into the range `-2^31 .. 2^31 - 1` of an `int` by keeping
its low 32 bits (two's-complement wrap-around). -/
def wrapInt (v : Int) : Int := (v + 2147483648) % 4294967296 - 2147483648

/-- Modelled from the spec: the header record `ppm_header` (declared in
`header.h`, which is not part of the source at hand).  The spec gives it a
format version, a width, a height and a maximum channel value, all non-negative
integers; `main` reads them as `version`, `width`, `height`, `maxValue`. -/
structure ppm_header where
  version : Nat
  width : Nat
  height : Nat
  maxValue : Nat
deriving DecidableEq

/-- What a run of the program leaves behind: the exit status, the bytes written
to `stdout`, the text written to `stderr`, and the part of `stdin` not read. -/
structure Outcome where
  status : Nat
  stdout : List Byte
  stderr : String
  stdin : List Byte
deriving DecidableEq

/-- The collaborators of `main` that are not defined in `prog2.c`. -/
structure Env where
  /-- Result of `malloc(sizeof(ppm_header))`: `none` is `NULL`, `some h` is a
  fresh record whose indeterminate contents are `h`. -/
  malloc_header : Option ppm_header
  /-- The call `readHeader(stdin, header)` (defined outside `prog2.c`) on a
  non-null record: given the stream and the record contents, the record contents
  and the unread rest of the stream after the call.  The call returns nothing
  and receives the pointer by value, so this is all `main` can observe. -/
  readHeader : List Byte → ppm_header → ppm_header × List Byte
  /-- Indeterminate contents of memory returned by `smalloc`, by offset. -/
  fresh : Nat → Byte

/-- The call `smalloc(n)`: a fresh buffer of `n` bytes with indeterminate
contents (allocation failure is handled inside `smalloc`, outside `prog2.c`). -/
def smalloc (env : Env) (n : Nat) : List Byte := (List.range n).map env.fresh

/-- The C function `isspace` on a character code. -/
def isspace (c : Nat) : Bool := c = 32 || (9 ≤ c && c ≤ 13)

/-- The C function `isdigit` on a character code. -/
def isdigit (c : Nat) : Bool := 48 ≤ c && c ≤ 57

/-- Value of the longest prefix of decimal digits, continuing from `acc`. -/
def digitsValue : List Nat → Nat → Nat
  | [], acc => acc
  | c :: cs, acc => if isdigit c then digitsValue cs (acc * 10 + (c - 48)) else acc

/-- The number a string denotes for `strtol(s, NULL, 10)`: leading white space
is skipped, an optional sign is read, then the longest run of decimal digits;
anything else ends the number (so a string without digits gives 0). -/
def decimalValue (s : String) : Int :=
  match (s.toList.map Char.toNat).dropWhile isspace with
  | [] => 0
  | c :: cs =>
    if c = 45 then - (digitsValue cs 0 : Int)
    else if c = 43 then (digitsValue cs 0 : Int)
    else (digitsValue (c :: cs) 0 : Int)

/-- The C function `strtol(s, NULL, 10)` with a 64-bit `long`: the number the
string denotes, replaced by `LONG_MAX` or `LONG_MIN` when it lies beyond them. -/
def strtol (s : String) : Int := max (-LONG_MAX - 1) (min LONG_MAX (decimalValue s))

/-- The C function `atoi`, which is `(int) strtol(s, NULL, 10)`: the result is
an `int`, the low 32 bits of the `long`.  (C leaves `atoi` undefined when the
number does not fit an `int`; this is what the C library computes.) -/
def atoi (s : String) : Int := wrapInt (strtol s)

/-- The bytes of an ASCII string. -/
def asciiBytes (s : String) : List Byte :=
  s.toList.map (fun c => (⟨c.toNat % 256, Nat.mod_lt _ (by decide)⟩ : Byte))

/-- The bytes written by `fprintf(stdout, "%s %d %d %d\n", magic, width, height, maxValue)`. -/
def headerLine (magic : String) (header : ppm_header) : List Byte :=
  asciiBytes (magic ++ " " ++ toString header.width ++ " " ++ toString header.height ++ " " ++
    toString header.maxValue ++ "\n")

/-- The function `main` with `argv` the command line (the command included) and
`stdin` the bytes of standard input.  The `int` products `width * height` and
`3 * size` keep their low 32 bits (`wrapInt`).  The result is `none` where the
run leaves what `prog2.c` determines: when the byte count `3 * size` is
negative (it is handed to `smalloc` and `fread`, which lie outside `prog2.c`),
when `smalloc(size)` is handed a negative size, and when `3 * size` has wrapped
so that a transform over `size` pixels would run beyond its buffers. -/
def main (env : Env) (argv : List String) (stdin : List Byte) : Option Outcome :=
  match argv with
  | [_, arg] =>
    let conversion := atoi arg
    match env.malloc_header with
    | none =>
      -- `header == NULL`; the call `readHeader(stdin, NULL)` before the test is
      -- taken to return without reading
      some ⟨HEADER_ERROR, [], "Invalid header, exiting..\n", stdin⟩
    | some h0 =>
      let (header, rest) := env.readHeader stdin h0
      if header.version ≠ PPM_COLOR_VERSION then
        some ⟨VERSION_ERROR, [], "Header version must be P6, exiting.\n", rest⟩
      else
        let size : Int := wrapInt ((header.width : Int) * (header.height : Int))
        -- the value of `3 * size` and of `size * 3`
        let count : Int := wrapInt (3 * size)
        if count < 0 then none
        else
          -- `fread(in, sizeof(unsigned char), size * 3, stdin)`
          let inp := rest.take count.toNat
          let numRead := inp.length
          let rest := rest.drop count.toNat
          if (numRead : Int) ≠ count then
            some ⟨CORRUPT_ERROR, [], "Corrupt input file, quiting.\n", rest⟩
          else if conversion = GREY_PARAM then
            if size < 0 ∨ count ≠ 3 * size then none
            else
              let out := convertToGreyscale inp (smalloc env size.toNat) size.toNat
              some ⟨EXIT_SUCCESS, headerLine COLOR_MAGIC_NUM header ++ out.take size.toNat, "",
                rest⟩
          else if conversion = SEPIA_PARAM then
            if 0 ≤ size ∧ count ≠ 3 * size then none
            else
              -- a negative `size` leaves the loop without an iteration
              let out := convertToSepia inp (smalloc env count.toNat) size.toNat
              some ⟨EXIT_SUCCESS, headerLine SEPIA_MAGIC_NUM header ++ out.take count.toNat, "",
                rest⟩
          else
            some ⟨PARAM_ERROR, [], "hey", rest⟩
  | _ =>
    -- `argc != 2`
    some ⟨PARAM_ERROR, [], USAGE, stdin⟩

/-! ## The header reader, from the spec -/

/-- Modelled from the spec: a decimal integer token of the header, one or more
digits, with the rest of the stream (part of the header parser, which is
defined outside `prog2.c`). -/
def parse_number (s : List Byte) : Option (Nat × List Byte) :=
  match s with
  | [] => none
  | c :: _ =>
    if isdigit c.val then
      some (digitsValue (s.map Fin.val) 0, s.dropWhile (fun b => isdigit b.val))
    else none

/-- Modelled from the spec: the single white-space byte that separates two
header tokens or ends the header (part of the header parser, which is defined
outside `prog2.c`). -/
def skip_separator (s : List Byte) : Option (List Byte) :=
  match s with
  | [] => none
  | c :: cs => if isspace c.val then some cs else none

/-- Modelled from the spec: the header parser `parse_header(stream)`, defined
outside `prog2.c`.  It reads the format tag `P<version>` and three integer
tokens, width, height and maximum value, each pair separated by a single
white-space byte, and the single white-space byte that ends the header, so that
the rest begins at the first pixel byte.  It fails when the stream ends early
or a field is not a non-negative integer. -/
def parse_header (s : List Byte) : Option (ppm_header × List Byte) :=
  match s with
  | [] => none
  | p :: s0 =>
    if p.val ≠ 80 then none
    else do
      let (version, s1) ← parse_number s0
      let s1 ← skip_separator s1
      let (width, s2) ← parse_number s1
      let s2 ← skip_separator s2
      let (height, s3) ← parse_number s2
      let s3 ← skip_separator s3
      let (maxValue, s4) ← parse_number s3
      let s4 ← skip_separator s4
      pure (⟨version, width, height, maxValue⟩, s4)

/-- Modelled from the spec: `readHeader(stdin, header)` built on `parse_header`.
A header that parses is stored in the record; when parsing fails the function
still returns to `main` (it has no result), with the record as it was. -/
def readHeader (s : List Byte) (h0 : ppm_header) : ppm_header × List Byte :=
  match parse_header s with
  | some (h, rest) => (h, rest)
  | none => (h0, s)

/-- An environment in which the header reader is the one modelled from the spec,
allocation succeeds, and fresh memory holds zeros. -/
def specEnv : Env where
  malloc_header := some ⟨0, 0, 0, 0⟩
  readHeader := readHeader
  fresh := fun _ => 0

/-! ## Reference values and closed forms used by the theorems -/

/-- The value `floor(0.299*R + 0.587*G + 0.114*B)` of the exact weighted sum:
the sum is `(299*R + 587*G + 114*B) / 1000`, so its floor is the integer
quotient. -/
def lumaFloor (r g b : Nat) : Nat := (299 * r + 587 * g + 114 * b) / 1000

/-- The value `floor(wr*R + wg*G + wb*B)` for weights given in thousandths. -/
def weightedFloor (wr wg wb : Nat) (r g b : Nat) : Nat := (wr * r + wg * g + wb * b) / 1000

/-- The byte `convertToGreyscale` leaves at `out[j]`. -/
def greyByte (inp : List Byte) (j : Nat) : Byte :=
  toUChar (pixelGrey (inp.getD (j * 3) 0) (inp.getD (j * 3 + 1) 0) (inp.getD (j * 3 + 2) 0))

/-- The byte `convertToSepia` leaves at `out[j]`: channel `j % 3` of pixel `j / 3`. -/
def sepiaByte (inp : List Byte) (j : Nat) : Byte :=
  let r := inp.getD (j / 3 * 3) 0
  let g := inp.getD (j / 3 * 3 + 1) 0
  let b := inp.getD (j / 3 * 3 + 2) 0
  if j % 3 = 0 then toUChar (sepiaR r g b)
  else if j % 3 = 1 then toUChar (sepiaG r g b)
  else toUChar (sepiaB r g b)

/-! ## The transforms on one flat memory

The same two loops with `in` and `out` as addresses into one byte-addressed
memory, so that what a call writes, and where, can be stated.  A read or a write
is an access to `mem[addr]`; `in + (i * 3)` and `out + (i * 3)` are address
arithmetic. -/

/-- One iteration of the loop of `convertToGreyscale` on a flat memory:
`pixelRGB = in + (i * 3)`, then `out[i] = pixelGrey`. -/
def greyStepMem (inAddr outAddr : Nat) (mem : List Byte) (i : Nat) : List Byte :=
  let pixelRGB := inAddr + i * 3
  mem.set (outAddr + i) (toUChar (pixelGrey (mem.getD pixelRGB 0) (mem.getD (pixelRGB + 1) 0)
    (mem.getD (pixelRGB + 2) 0)))

/-- The function `convertToGreyscale(in, out, size)` on a flat memory: the memory
after the call. -/
def convertToGreyscaleMem (mem : List Byte) (inAddr outAddr size : Nat) : List Byte :=
  (List.range size).foldl (greyStepMem inAddr outAddr) mem

/-- One iteration of the loop of `convertToSepia` on a flat memory:
`pixelRGB = in + (i * 3)`, `pixelSepia = out + (i * 3)`, the three sums are
computed, then `pixelSepia[0]`, `pixelSepia[1]`, `pixelSepia[2]` are assigned. -/
def sepiaStepMem (inAddr outAddr : Nat) (mem : List Byte) (i : Nat) : List Byte :=
  let pixelRGB := inAddr + i * 3
  let pixelSepia := outAddr + i * 3
  let r := mem.getD pixelRGB 0
  let g := mem.getD (pixelRGB + 1) 0
  let b := mem.getD (pixelRGB + 2) 0
  ((mem.set pixelSepia (toUChar (sepiaR r g b))).set (pixelSepia + 1)
    (toUChar (sepiaG r g b))).set (pixelSepia + 2) (toUChar (sepiaB r g b))

/-- The function `convertToSepia(in, out, size)` on a flat memory: the memory
after the call. -/
def convertToSepiaMem (mem : List Byte) (inAddr outAddr size : Nat) : List Byte :=
  (List.range size).foldl (sepiaStepMem inAddr outAddr) mem

/-- The bytes `mem[addr .. addr + len - 1]`. -/
def region (mem : List Byte) (addr len : Nat) : List Byte := (mem.drop addr).take len

/-! ## The greyscale transform as intended -/

/-- The intended greyscale byte, in the words of the spec: the truncated luma
clamped to the unsigned range `0..255`, with no signed intermediate. -/
def greyByteIntended (r g b : Byte) : Byte :=
  ⟨min 255 (dtrunc (greyLuma r g b)), by omega⟩

/-- One iteration of the intended greyscale loop: `out[i]` receives the clamped
truncated luma of pixel `i`. -/
def greyStepIntended (inp : List Byte) (out : List Byte) (i : Nat) : List Byte :=
  out.set i (greyByteIntended (inp.getD (i * 3) 0) (inp.getD (i * 3 + 1) 0)
    (inp.getD (i * 3 + 2) 0))

/-- The intended greyscale transform: the loop over the `size` pixels with the
unsigned clamp in place of the signed `char`. -/
def convertToGreyscaleIntended (inp : List Byte) (out : List Byte) (size : Nat) : List Byte :=
  (List.range size).foldl (greyStepIntended inp) out

end Prog2

/-! # Theorems -/

namespace Prog2

/-! ## Rounding -/

theorem bitLengthAux_le (fuel : Nat) :
    ∀ (x k : Nat), x < 2 ^ k → bitLengthAux fuel x ≤ k := by
  induction fuel with
  | zero => intro x k _; simp [bitLengthAux]
  | succ f ih =>
    intro x k hx
    unfold bitLengthAux
    split
    · exact Nat.zero_le _
    · rename_i hx0
      cases k with
      | zero => simp at hx; exact absurd hx hx0
      | succ k =>
        have h2 : x / 2 < 2 ^ k := by
          rw [Nat.div_lt_iff_lt_mul (by decide)]
          rw [pow_succ] at hx
          exact hx
        have := ih (x / 2) k h2
        omega

/-- A value with at most `53 + k` binary digits moves by at most `2^k` when it
is rounded to binary64. -/
theorem roundDouble_close (k x : Nat) (hx : x < 2 ^ (MANT_BITS + k)) :
    roundDouble x ≤ x + 2 ^ k ∧ x ≤ roundDouble x + 2 ^ k := by
  unfold roundDouble
  split
  · exact ⟨Nat.le_add_right _ _, Nat.le_add_right _ _⟩
  · have hb : bitLength x ≤ MANT_BITS + k := bitLengthAux_le 128 x _ hx
    have hsh : bitLength x - MANT_BITS ≤ k := by omega
    generalize bitLength x - MANT_BITS = sh at hsh ⊢
    have hP : 2 ^ sh ≤ 2 ^ k := Nat.pow_le_pow_right (by decide) hsh
    have hpos : 0 < 2 ^ sh := Nat.pow_pos (by decide)
    have hdm := Nat.div_add_mod x (2 ^ sh)
    have hr := Nat.mod_lt x hpos
    have hmul : 2 ^ sh * (x / 2 ^ sh) = x / 2 ^ sh * 2 ^ sh := Nat.mul_comm _ _
    have hsucc : (x / 2 ^ sh + 1) * 2 ^ sh = x / 2 ^ sh * 2 ^ sh + 2 ^ sh := by ring
    simp only []
    generalize x / 2 ^ sh * 2 ^ sh = qp at *
    generalize x % 2 ^ sh = r at *
    generalize 2 ^ sh = P at *
    generalize 2 ^ k = K at *
    split_ifs <;> omega

/-- A value below `2^65` (below 512 on the carrier scale) moves by at most
`4096` carrier units when it is rounded. -/
theorem roundDouble_close65 (x : Nat) (hx : x < 36893488147419103232) :
    roundDouble x ≤ x + 4096 ∧ x ≤ roundDouble x + 4096 :=
  roundDouble_close 12 x (by simpa [MANT_BITS] using hx)

/-! ## The literals -/

theorem dlit_299 : dlit 299 1000 = 0x1322d0e5604189 * 2 ^ 2 := by decide
theorem dlit_587 : dlit 587 1000 = 0x12c8b439581062 * 2 ^ 3 := by decide
theorem dlit_114 : dlit 114 1000 = 0x1d2f1a9fbe76c9 := by decide
theorem dlit_393 : dlit 393 1000 = 0x1926e978d4fdf4 * 2 ^ 2 := by decide
theorem dlit_769 : dlit 769 1000 = 0x189ba5e353f7cf * 2 ^ 3 := by decide
theorem dlit_189 : dlit 189 1000 = 0x183126e978d4fe * 2 ^ 1 := by decide
theorem dlit_349 : dlit 349 1000 = 0x165604189374bc * 2 ^ 2 := by decide
theorem dlit_686 : dlit 686 1000 = 0x15f3b645a1cac1 * 2 ^ 3 := by decide
theorem dlit_168 : dlit 168 1000 = 0x15810624dd2f1b * 2 ^ 1 := by decide
theorem dlit_272 : dlit 272 1000 = 0x116872b020c49c * 2 ^ 2 := by decide
theorem dlit_534 : dlit 534 1000 = 0x1116872b020c4a * 2 ^ 3 := by decide
theorem dlit_131 : dlit 131 1000 = 0x10c49ba5e353f8 * 2 ^ 1 := by decide

/-! ## Narrowing and storing -/

/-- A value in `0..255` survives the trip through the signed `char` and back
into an `unsigned char`. -/
theorem toUChar_toSChar (v : Nat) (hv : v < 256) : (toUChar (toSChar (v : Int))).val = v := by
  simp only [toUChar, toSChar]
  omega

theorem toUChar_clamp255 (v : Nat) : (toUChar (clamp255 (v : Int))).val = min 255 v := by
  simp only [toUChar, clamp255]
  split_ifs <;> omega

/-! ## One pixel -/

/-- The truncated `double` luma against the floor of the exact weighted sum:
never above it, at most one below it, and equal to it unless the exact sum is
an integer. -/
theorem greyLuma_trunc (r g b : Byte) :
    dtrunc (greyLuma r g b) ≤ lumaFloor r.val g.val b.val ∧
    lumaFloor r.val g.val b.val ≤ dtrunc (greyLuma r g b) + 1 ∧
    ((299 * r.val + 587 * g.val + 114 * b.val) % 1000 ≠ 0 →
      dtrunc (greyLuma r g b) = lumaFloor r.val g.val b.val) := by
  obtain ⟨r, hr⟩ := r
  obtain ⟨g, hg⟩ := g
  obtain ⟨b, hb⟩ := b
  simp only [greyLuma, dadd, dmul, dtrunc, lumaFloor, dlit_299, dlit_587, dlit_114, ONE,
    FRAC_BITS]
  norm_num only
  have h1 := roundDouble_close65 (21545220617340452 * r) (by omega)
  generalize roundDouble (21545220617340452 * r) = p1 at *
  have h2 := roundDouble_close65 (42297807700263696 * g) (by omega)
  generalize roundDouble (42297807700263696 * g) = p2 at *
  have h3 := roundDouble_close65 (8214565720323785 * b) (by omega)
  generalize roundDouble (8214565720323785 * b) = p3 at *
  have h4 := roundDouble_close65 (p1 + p2) (by omega)
  generalize roundDouble (p1 + p2) = s1 at *
  have h5 := roundDouble_close65 (s1 + p3) (by omega)
  generalize roundDouble (s1 + p3) = d at *
  omega

/-- The byte stored for a pixel is the truncated luma itself: it is below 256,
so the signed `char` in between changes nothing. -/
theorem toUChar_pixelGrey (r g b : Byte) :
    (toUChar (pixelGrey r g b)).val = dtrunc (greyLuma r g b) := by
  have h := (greyLuma_trunc r g b).1
  have hl : lumaFloor r.val g.val b.val < 256 := by
    have := r.isLt; have := g.isLt; have := b.isLt
    simp only [lumaFloor]; omega
  exact toUChar_toSChar _ (by omega)

/-! ## The loops -/

/-- A loop that assigns `out[i] = f i` for `i = 0 .. n-1`. -/
theorem foldl_set_length {α : Type} (f : Nat → α) (n : Nat) (out : List α) :
    ((List.range n).foldl (fun o i => o.set i (f i)) out).length = out.length := by
  induction n with
  | zero => rfl
  | succ n ih => simp [List.range_succ, List.foldl_append, ih]

theorem foldl_set_getElem? {α : Type} (f : Nat → α) (n : Nat) (out : List α) (j : Nat) :
    ((List.range n).foldl (fun o i => o.set i (f i)) out)[j]? =
      if j < n ∧ j < out.length then some (f j) else out[j]? := by
  induction n with
  | zero => simp
  | succ n ih =>
    simp only [List.range_succ, List.foldl_append, List.foldl_cons, List.foldl_nil]
    rw [List.getElem?_set, foldl_set_length, ih]
    by_cases hjn : n = j
    · subst hjn
      by_cases hl : n < out.length
      · simp [hl]
      · simp only [hl, and_false, if_false, if_true]
        simp at hl
        exact (List.getElem?_eq_none hl).symm
    · simp only [hjn, if_false]
      by_cases hl : j < out.length
      · by_cases h1 : j < n
        · have : j < n + 1 := by omega
          simp [h1, hl, this]
        · have : ¬ j < n + 1 := by omega
          simp [h1, this]
      · simp [hl]

theorem convertToGreyscale_length (inp out : List Byte) (n : Nat) :
    (convertToGreyscale inp out n).length = out.length :=
  foldl_set_length (greyByte inp) n out

theorem convertToGreyscale_getElem? (inp out : List Byte) (n j : Nat) :
    (convertToGreyscale inp out n)[j]? =
      if j < n ∧ j < out.length then some (greyByte inp j) else out[j]? :=
  foldl_set_getElem? (greyByte inp) n out j


theorem sepiaStep_length (inp out : List Byte) (i : Nat) :
    (sepiaStep inp out i).length = out.length := by
  simp [sepiaStep]

theorem sepiaStep_getElem? (inp out : List Byte) (i j : Nat) :
    (sepiaStep inp out i)[j]? =
      if j / 3 = i ∧ j < out.length then some (sepiaByte inp j) else out[j]? := by
  simp only [sepiaStep, List.getElem?_set, List.length_set]
  by_cases hl : j < out.length
  · by_cases h2 : i * 3 + 2 = j
    · subst h2
      have e1 : (i * 3 + 2) / 3 = i := by omega
      have e2 : (i * 3 + 2) % 3 = 2 := by omega
      simp [sepiaByte, e1, e2, hl]
    · by_cases h1 : i * 3 + 1 = j
      · subst h1
        have e1 : (i * 3 + 1) / 3 = i := by omega
        have e2 : (i * 3 + 1) % 3 = 1 := by omega
        have e3 : i * 3 + 1 < out.length := hl
        simp [sepiaByte, e1, e2, e3]
      · by_cases h0 : i * 3 = j
        · subst h0
          have e1 : (i * 3) / 3 = i := by omega
          have e2 : (i * 3) % 3 = 0 := by omega
          have e3 : i * 3 < out.length := hl
          simp [sepiaByte, e1, e2, e3]
        · have e1 : ¬ j / 3 = i := by omega
          simp [h0, h1, h2, e1]
  · have e0 : out[j]? = none := List.getElem?_eq_none (by omega)
    simp only [hl, and_false, if_false, e0]
    split_ifs <;> first | rfl | omega

theorem convertToSepia_length (inp out : List Byte) (n : Nat) :
    (convertToSepia inp out n).length = out.length := by
  unfold convertToSepia
  induction n with
  | zero => rfl
  | succ n ih => simp [List.range_succ, List.foldl_append, sepiaStep_length, ih]

theorem convertToSepia_getElem? (inp out : List Byte) (n j : Nat) :
    (convertToSepia inp out n)[j]? =
      if j / 3 < n ∧ j < out.length then some (sepiaByte inp j) else out[j]? := by
  induction n with
  | zero => simp [convertToSepia]
  | succ n ih =>
    have hstep : convertToSepia inp out (n + 1) = sepiaStep inp (convertToSepia inp out n) n := by
      simp [convertToSepia, List.range_succ, List.foldl_append]
    rw [hstep, sepiaStep_getElem?, convertToSepia_length, ih]
    by_cases hl : j < out.length
    · by_cases hjn : j / 3 = n
      · have : j / 3 < n + 1 := by omega
        simp [hjn, hl]
      · by_cases h1 : j / 3 < n
        · have : j / 3 < n + 1 := by omega
          simp [hjn, hl, h1, this]
        · have : ¬ j / 3 < n + 1 := by omega
          simp [hjn, h1, this]
    · simp [hl]

/-- The truncated `double` sum of the red sepia row against the floor of the
exact weighted sum. -/
theorem sepiaRaw_red (r g b : Byte) :
    ∃ d : Nat, sepiaRaw (dlit 393 1000) (dlit 769 1000) (dlit 189 1000) r g b = (d : Int) ∧
      d ≤ weightedFloor 393 769 189 r.val g.val b.val ∧
      weightedFloor 393 769 189 r.val g.val b.val ≤ d + 1 ∧
      ((393 * r.val + 769 * g.val + 189 * b.val) % 1000 ≠ 0 →
        d = weightedFloor 393 769 189 r.val g.val b.val) := by
  refine ⟨_, rfl, ?_⟩
  obtain ⟨r, hr⟩ := r
  obtain ⟨g, hg⟩ := g
  obtain ⟨b, hb⟩ := b
  simp only [dadd, dmul, dtrunc, weightedFloor, dlit_393, dlit_769, dlit_189, ONE, FRAC_BITS]
  norm_num only
  have h1 := roundDouble_close65 (28318634456905680 * r) (by omega)
  generalize roundDouble (28318634456905680 * r) = p1 at *
  have h2 := roundDouble_close65 (55412289815166584 * g) (by omega)
  generalize roundDouble (55412289815166584 * g) = p2 at *
  have h3 := roundDouble_close65 (13618885273168380 * b) (by omega)
  generalize roundDouble (13618885273168380 * b) = p3 at *
  have h4 := roundDouble_close65 (p1 + p2) (by omega)
  generalize roundDouble (p1 + p2) = s1 at *
  have h5 := roundDouble_close65 (s1 + p3) (by omega)
  generalize roundDouble (s1 + p3) = d at *
  omega


/-- The integer quotient `weightedFloor` is the floor of the weighted sum taken
in exact rational arithmetic. -/
theorem weightedFloor_eq_floor (wr wg wb r g b : Nat) :
    weightedFloor wr wg wb r g b =
      ⌊(wr : ℚ) / 1000 * r + (wg : ℚ) / 1000 * g + (wb : ℚ) / 1000 * b⌋₊ := by
  have h : (wr : ℚ) / 1000 * r + (wg : ℚ) / 1000 * g + (wb : ℚ) / 1000 * b =
      ((wr * r + wg * g + wb * b : ℕ) : ℚ) / ((1000 : ℕ) : ℚ) := by
    push_cast; ring
  rw [h, Nat.floor_div_eq_div]
  rfl

/-- The truncated `double` sum of the green sepia row against the floor of the
exact weighted sum. -/
theorem sepiaRaw_green (r g b : Byte) :
    ∃ d : Nat, sepiaRaw (dlit 349 1000) (dlit 686 1000) (dlit 168 1000) r g b = (d : Int) ∧
      d ≤ weightedFloor 349 686 168 r.val g.val b.val ∧
      weightedFloor 349 686 168 r.val g.val b.val ≤ d + 1 ∧
      ((349 * r.val + 686 * g.val + 168 * b.val) % 1000 ≠ 0 →
        d = weightedFloor 349 686 168 r.val g.val b.val) := by
  refine ⟨_, rfl, ?_⟩
  obtain ⟨r, hr⟩ := r
  obtain ⟨g, hg⟩ := g
  obtain ⟨b, hb⟩ := b
  simp only [dadd, dmul, dtrunc, weightedFloor, dlit_349, dlit_686, dlit_168, ONE, FRAC_BITS]
  norm_num only
  have h1 := roundDouble_close65 (25148100319236848 * r) (by omega)
  generalize roundDouble (25148100319236848 * r) = p1 at *
  have h2 := roundDouble_close65 (49431509510018568 * g) (by omega)
  generalize roundDouble (49431509510018568 * g) = p2 at *
  have h3 := roundDouble_close65 (12105675798371894 * b) (by omega)
  generalize roundDouble (12105675798371894 * b) = p3 at *
  have h4 := roundDouble_close65 (p1 + p2) (by omega)
  generalize roundDouble (p1 + p2) = s1 at *
  have h5 := roundDouble_close65 (s1 + p3) (by omega)
  generalize roundDouble (s1 + p3) = d at *
  omega

/-- The truncated `double` sum of the blue sepia row against the floor of the
exact weighted sum. -/
theorem sepiaRaw_blue (r g b : Byte) :
    ∃ d : Nat, sepiaRaw (dlit 272 1000) (dlit 534 1000) (dlit 131 1000) r g b = (d : Int) ∧
      d ≤ weightedFloor 272 534 131 r.val g.val b.val ∧
      weightedFloor 272 534 131 r.val g.val b.val ≤ d + 1 ∧
      ((272 * r.val + 534 * g.val + 131 * b.val) % 1000 ≠ 0 →
        d = weightedFloor 272 534 131 r.val g.val b.val) := by
  refine ⟨_, rfl, ?_⟩
  obtain ⟨r, hr⟩ := r
  obtain ⟨g, hg⟩ := g
  obtain ⟨b, hb⟩ := b
  simp only [dadd, dmul, dtrunc, weightedFloor, dlit_272, dlit_534, dlit_131, ONE, FRAC_BITS]
  norm_num only
  have h1 := roundDouble_close65 (19599665578316400 * r) (by omega)
  generalize roundDouble (19599665578316400 * r) = p1 at *
  have h2 := roundDouble_close65 (38478755216253520 * g) (by omega)
  generalize roundDouble (38478755216253520 * g) = p2 at *
  have h3 := roundDouble_close65 (9439544818968560 * b) (by omega)
  generalize roundDouble (9439544818968560 * b) = p3 at *
  have h4 := roundDouble_close65 (p1 + p2) (by omega)
  generalize roundDouble (p1 + p2) = s1 at *
  have h5 := roundDouble_close65 (s1 + p3) (by omega)
  generalize roundDouble (s1 + p3) = d at *
  omega

/-- Clamping and storing keeps a channel within one of the clamped exact floor. -/
theorem clamp_store (x : Int) (f e : Nat)
    (h : ∃ d : Nat, x = (d : Int) ∧ d ≤ f ∧ f ≤ d + 1 ∧ (e % 1000 ≠ 0 → d = f)) :
    (toUChar (clamp255 x)).val ≤ min 255 f ∧ min 255 f ≤ (toUChar (clamp255 x)).val + 1 ∧
      (e % 1000 ≠ 0 → (toUChar (clamp255 x)).val = min 255 f) := by
  obtain ⟨d, rfl, h1, h2, h3⟩ := h
  rw [toUChar_clamp255]
  refine ⟨by omega, by omega, fun he => ?_⟩
  rw [h3 he]

/-! ## The pixel transforms: one pixel of a buffer -/

/-- C1 (as amended).  For every pixel count `n`, every RGB buffer of `3*n`
bytes and every `i < n`, `convertToGreyscale` stores at `out[i]` a byte in
`0..255` that is the luma of pixel `i` evaluated in `double` arithmetic and
truncated, unchanged by the signed 8-bit intermediate; it is never above
`floor(0.299*R + 0.587*G + 0.114*B)`, at most one below it, and equal to it
whenever the exact sum is not an integer. -/
theorem convertToGreyscale_pixel (n : Nat) (inp out : List Byte) (i : Nat)
    (hin : inp.length = 3 * n) (hout : out.length = n) (hi : i < n) :
    ∃ v : Byte, (convertToGreyscale inp out n)[i]? = some v ∧
      v.val = dtrunc (greyLuma (inp.getD (i * 3) 0) (inp.getD (i * 3 + 1) 0)
        (inp.getD (i * 3 + 2) 0)) ∧
      v.val ≤ lumaFloor (inp.getD (i * 3) 0).val (inp.getD (i * 3 + 1) 0).val
        (inp.getD (i * 3 + 2) 0).val ∧
      lumaFloor (inp.getD (i * 3) 0).val (inp.getD (i * 3 + 1) 0).val
        (inp.getD (i * 3 + 2) 0).val ≤ v.val + 1 ∧
      ((299 * (inp.getD (i * 3) 0).val + 587 * (inp.getD (i * 3 + 1) 0).val +
          114 * (inp.getD (i * 3 + 2) 0).val) % 1000 ≠ 0 →
        v.val = lumaFloor (inp.getD (i * 3) 0).val (inp.getD (i * 3 + 1) 0).val
          (inp.getD (i * 3 + 2) 0).val) := by
  have _hpix : i * 3 + 2 < inp.length := by omega
  refine ⟨greyByte inp i, ?_, ?_⟩
  · rw [convertToGreyscale_getElem?, if_pos ⟨hi, by omega⟩]
  · have hv := toUChar_pixelGrey (inp.getD (i * 3) 0) (inp.getD (i * 3 + 1) 0)
      (inp.getD (i * 3 + 2) 0)
    have ht := greyLuma_trunc (inp.getD (i * 3) 0) (inp.getD (i * 3 + 1) 0)
      (inp.getD (i * 3 + 2) 0)
    simp only [greyByte]
    rw [hv]
    exact ⟨rfl, ht⟩

/-- The amended C1 at pixel 1 of the two-pixel buffer `[10,20,30, 200,100,50]`:
the byte stored is 124. -/
theorem convertToGreyscale_pixel_witness :
    ∃ v : Byte, (convertToGreyscale [10, 20, 30, 200, 100, 50] [0, 0] 2)[1]? = some v ∧
      v.val = 124 := by
  obtain ⟨v, h1, h2, -⟩ :=
    convertToGreyscale_pixel 2 [10, 20, 30, 200, 100, 50] [0, 0] 1 rfl rfl (by decide)
  exact ⟨v, h1, by rw [h2]; decide⟩

/-- C1 (as stated) fails at the pixel `(1,1,1)`: the exact sum is `1.000`, whose
floor is 1, but the `double` sum is just below 1 and the byte stored is 0. -/
theorem convertToGreyscale_floor_counterexample :
    (convertToGreyscale [1, 1, 1] [0] 1)[0]? = some 0 ∧
      ⌊(299 : ℚ) / 1000 * 1 + (587 : ℚ) / 1000 * 1 + (114 : ℚ) / 1000 * 1⌋₊ = 1 := by
  refine ⟨by decide, ?_⟩
  norm_num

/-- C2 (as amended).  For every pixel count `n`, every RGB buffer of `3*n`
bytes and every `i < n`, `convertToSepia` stores at `out[3i]`, `out[3i+1]`,
`out[3i+2]`, in this order, the red, green and blue sepia sums of pixel `i`
evaluated in `double` arithmetic, truncated and clamped to 255; each byte is
never above `min(255, floor(exact sum))`, at most one below it, and equal to it
whenever the exact sum is not an integer. -/
theorem convertToSepia_pixel (n : Nat) (inp out : List Byte) (i : Nat)
    (hin : inp.length = 3 * n) (hout : out.length = 3 * n) (hi : i < n) :
    ∃ vr vg vb : Byte,
      (convertToSepia inp out n)[3 * i]? = some vr ∧
      (convertToSepia inp out n)[3 * i + 1]? = some vg ∧
      (convertToSepia inp out n)[3 * i + 2]? = some vb ∧
      vr = toUChar (sepiaR (inp.getD (i * 3) 0) (inp.getD (i * 3 + 1) 0) (inp.getD (i * 3 + 2) 0)) ∧
      vg = toUChar (sepiaG (inp.getD (i * 3) 0) (inp.getD (i * 3 + 1) 0) (inp.getD (i * 3 + 2) 0)) ∧
      vb = toUChar (sepiaB (inp.getD (i * 3) 0) (inp.getD (i * 3 + 1) 0) (inp.getD (i * 3 + 2) 0)) ∧
      (vr.val ≤ min 255 (weightedFloor 393 769 189 (inp.getD (i * 3) 0).val
          (inp.getD (i * 3 + 1) 0).val (inp.getD (i * 3 + 2) 0).val) ∧
        min 255 (weightedFloor 393 769 189 (inp.getD (i * 3) 0).val
          (inp.getD (i * 3 + 1) 0).val (inp.getD (i * 3 + 2) 0).val) ≤ vr.val + 1 ∧
        ((393 * (inp.getD (i * 3) 0).val + 769 * (inp.getD (i * 3 + 1) 0).val +
            189 * (inp.getD (i * 3 + 2) 0).val) % 1000 ≠ 0 →
          vr.val = min 255 (weightedFloor 393 769 189 (inp.getD (i * 3) 0).val
            (inp.getD (i * 3 + 1) 0).val (inp.getD (i * 3 + 2) 0).val))) ∧
      (vg.val ≤ min 255 (weightedFloor 349 686 168 (inp.getD (i * 3) 0).val
          (inp.getD (i * 3 + 1) 0).val (inp.getD (i * 3 + 2) 0).val) ∧
        min 255 (weightedFloor 349 686 168 (inp.getD (i * 3) 0).val
          (inp.getD (i * 3 + 1) 0).val (inp.getD (i * 3 + 2) 0).val) ≤ vg.val + 1 ∧
        ((349 * (inp.getD (i * 3) 0).val + 686 * (inp.getD (i * 3 + 1) 0).val +
            168 * (inp.getD (i * 3 + 2) 0).val) % 1000 ≠ 0 →
          vg.val = min 255 (weightedFloor 349 686 168 (inp.getD (i * 3) 0).val
            (inp.getD (i * 3 + 1) 0).val (inp.getD (i * 3 + 2) 0).val))) ∧
      (vb.val ≤ min 255 (weightedFloor 272 534 131 (inp.getD (i * 3) 0).val
          (inp.getD (i * 3 + 1) 0).val (inp.getD (i * 3 + 2) 0).val) ∧
        min 255 (weightedFloor 272 534 131 (inp.getD (i * 3) 0).val
          (inp.getD (i * 3 + 1) 0).val (inp.getD (i * 3 + 2) 0).val) ≤ vb.val + 1 ∧
        ((272 * (inp.getD (i * 3) 0).val + 534 * (inp.getD (i * 3 + 1) 0).val +
            131 * (inp.getD (i * 3 + 2) 0).val) % 1000 ≠ 0 →
          vb.val = min 255 (weightedFloor 272 534 131 (inp.getD (i * 3) 0).val
            (inp.getD (i * 3 + 1) 0).val (inp.getD (i * 3 + 2) 0).val))) := by
  have _hpix : i * 3 + 2 < inp.length := by omega
  have e0 : (3 * i) / 3 = i := by omega
  have e1 : (3 * i + 1) / 3 = i := by omega
  have e2 : (3 * i + 2) / 3 = i := by omega
  have m0 : (3 * i) % 3 = 0 := by omega
  have m1 : (3 * i + 1) % 3 = 1 := by omega
  have m2 : (3 * i + 2) % 3 = 2 := by omega
  refine ⟨_, _, _, ?_, ?_, ?_, rfl, rfl, rfl, ?_, ?_, ?_⟩
  · rw [convertToSepia_getElem?, if_pos ⟨by omega, by omega⟩]
    simp [sepiaByte, e0, m0]
  · rw [convertToSepia_getElem?, if_pos ⟨by omega, by omega⟩]
    simp [sepiaByte, e1, m1]
  · rw [convertToSepia_getElem?, if_pos ⟨by omega, by omega⟩]
    simp [sepiaByte, e2, m2]
  · exact clamp_store _ _ _ (sepiaRaw_red _ _ _)
  · exact clamp_store _ _ _ (sepiaRaw_green _ _ _)
  · exact clamp_store _ _ _ (sepiaRaw_blue _ _ _)

/-- The amended C2 at the one-pixel buffer `[200,100,50]`: the three bytes
stored are 164, 146, 114. -/
theorem convertToSepia_pixel_witness :
    ∃ vr vg vb : Byte,
      (convertToSepia [200, 100, 50] [0, 0, 0] 1)[3 * 0]? = some vr ∧
      (convertToSepia [200, 100, 50] [0, 0, 0] 1)[3 * 0 + 1]? = some vg ∧
      (convertToSepia [200, 100, 50] [0, 0, 0] 1)[3 * 0 + 2]? = some vb ∧
      vr = 164 ∧ vg = 146 ∧ vb = 114 := by
  obtain ⟨vr, vg, vb, h0, h1, h2, hr, hg, hb, -⟩ :=
    convertToSepia_pixel 1 [200, 100, 50] [0, 0, 0] 0 rfl rfl (by decide)
  exact ⟨vr, vg, vb, h0, h1, h2, by rw [hr]; decide, by rw [hg]; decide, by rw [hb]; decide⟩

/-- C2 (as stated) fails at the pixel `(4,11,21)`: the exact red sum is
`14.000`, whose floor is 14, but the `double` sum is just below 14 and the byte
stored at `out[0]` is 13. -/
theorem convertToSepia_floor_counterexample :
    (convertToSepia [4, 11, 21] [0, 0, 0] 1)[0]? = some 13 ∧
      min 255 ⌊(393 : ℚ) / 1000 * 4 + (769 : ℚ) / 1000 * 11 + (189 : ℚ) / 1000 * 21⌋₊ = 14 := by
  refine ⟨by decide, ?_⟩
  norm_num


/-! ## The program: sample run and white pixels -/

theorem smalloc_length (env : Env) (n : Nat) : (smalloc env n).length = n := by
  simp [smalloc]

/-- With an output buffer of exactly `n` bytes, `convertToGreyscale` leaves the
`n` bytes `greyByte inp 0 .. greyByte inp (n-1)`. -/
theorem convertToGreyscale_eq (inp out : List Byte) (n : Nat) (h : out.length = n) :
    convertToGreyscale inp out n = (List.range n).map (greyByte inp) := by
  apply List.ext_getElem?
  intro j
  rw [convertToGreyscale_getElem?, List.getElem?_map]
  by_cases hj : j < n
  · rw [if_pos ⟨hj, by omega⟩, List.getElem?_range hj]
    rfl
  · rw [if_neg (by omega), List.getElem?_eq_none (by omega),
      List.getElem?_eq_none (by simp; omega)]
    rfl

/-- With an output buffer of exactly `3*n` bytes, `convertToSepia` leaves the
`3*n` bytes `sepiaByte inp 0 .. sepiaByte inp (3*n-1)`. -/
theorem convertToSepia_eq (inp out : List Byte) (n : Nat) (h : out.length = 3 * n) :
    convertToSepia inp out n = (List.range (3 * n)).map (sepiaByte inp) := by
  apply List.ext_getElem?
  intro j
  rw [convertToSepia_getElem?, List.getElem?_map]
  by_cases hj : j < 3 * n
  · rw [if_pos ⟨by omega, by omega⟩, List.getElem?_range hj]
    rfl
  · rw [if_neg (by omega), List.getElem?_eq_none (by omega),
      List.getElem?_eq_none (by simp; omega)]
    rfl

theorem wrapInt_of_fits (n : Nat) (h : n ≤ INT_MAX) : wrapInt (n : Int) = (n : Int) := by
  simp only [INT_MAX] at h
  simp only [wrapInt]
  omega

/-- The run of `main` on one argument and a version-6 header whose byte count
`3 * width * height` fits in an `int`: no product wraps. -/
theorem main_in_range (env : Env) (cmd arg : String) (stdin rest : List Byte)
    (h0 header : ppm_header) (halloc : env.malloc_header = some h0)
    (hread : env.readHeader stdin h0 = (header, rest)) (hver : header.version = 6)
    (hint : 3 * (header.width * header.height) ≤ INT_MAX) :
    main env [cmd, arg] stdin =
      if (rest.take (header.width * header.height * 3)).length ≠
          header.width * header.height * 3 then
        some ⟨CORRUPT_ERROR, [], "Corrupt input file, quiting.\n",
          rest.drop (header.width * header.height * 3)⟩
      else if atoi arg = GREY_PARAM then
        some ⟨EXIT_SUCCESS, headerLine COLOR_MAGIC_NUM header ++
          (convertToGreyscale (rest.take (header.width * header.height * 3))
            (smalloc env (header.width * header.height))
            (header.width * header.height)).take (header.width * header.height), "",
          rest.drop (header.width * header.height * 3)⟩
      else if atoi arg = SEPIA_PARAM then
        some ⟨EXIT_SUCCESS, headerLine SEPIA_MAGIC_NUM header ++
          (convertToSepia (rest.take (header.width * header.height * 3))
            (smalloc env (3 * (header.width * header.height)))
            (header.width * header.height)).take (header.width * header.height * 3), "",
          rest.drop (header.width * header.height * 3)⟩
      else some ⟨PARAM_ERROR, [], "hey", rest.drop (header.width * header.height * 3)⟩ := by
  have hsize : wrapInt ((header.width : Int) * (header.height : Int)) =
      ((header.width * header.height : Nat) : Int) := by
    rw [← Int.natCast_mul]
    exact wrapInt_of_fits _ (by omega)
  have hcount : wrapInt (3 * ((header.width * header.height : Nat) : Int)) =
      ((header.width * header.height * 3 : Nat) : Int) := by
    have e : (3 : Int) * ((header.width * header.height : Nat) : Int) =
        ((header.width * header.height * 3 : Nat) : Int) := by
      push_cast; ring
    rw [e]
    exact wrapInt_of_fits _ (by omega)
  have hnn : ¬ (((header.width * header.height * 3 : Nat) : Int) < 0) := by omega
  have h3 : ((header.width * header.height * 3 : Nat) : Int) =
      3 * ((header.width * header.height : Nat) : Int) := by
    push_cast; ring
  have hg : ¬ ((((header.width * header.height : Nat) : Int) < 0) ∨
      ((header.width * header.height * 3 : Nat) : Int) ≠
        3 * ((header.width * header.height : Nat) : Int)) := by
    rw [← h3]; omega
  have hs : ¬ ((0 ≤ ((header.width * header.height : Nat) : Int)) ∧
      ((header.width * header.height * 3 : Nat) : Int) ≠
        3 * ((header.width * header.height : Nat) : Int)) := by
    rw [← h3]; omega
  have hm : 3 * (header.width * header.height) = header.width * header.height * 3 := by omega
  simp only [main, halloc, hread, hver, PPM_COLOR_VERSION, hsize, hcount, hnn, hg, hs,
    Int.toNat_ofNat, ne_eq, not_true_eq_false, if_false, Nat.cast_inj, hm]

/-- The greyscale branch of `main`: one argument that reads as 1, a version-6
header, and a complete payload. -/
theorem main_grey_run (env : Env) (cmd arg : String) (stdin rest : List Byte)
    (h0 header : ppm_header) (hmode : atoi arg = 1) (halloc : env.malloc_header = some h0)
    (hread : env.readHeader stdin h0 = (header, rest)) (hver : header.version = 6)
    (hint : 3 * (header.width * header.height) ≤ INT_MAX)
    (hlen : 3 * (header.width * header.height) ≤ rest.length) :
    main env [cmd, arg] stdin =
      some ⟨0, headerLine COLOR_MAGIC_NUM header ++
          (List.range (header.width * header.height)).map
            (greyByte (rest.take (header.width * header.height * 3))),
        "", rest.drop (header.width * header.height * 3)⟩ := by
  have h2 : min (header.width * header.height * 3) rest.length =
      header.width * header.height * 3 := by omega
  rw [main_in_range env cmd arg stdin rest h0 header halloc hread hver hint]
  simp only [hmode, List.length_take, h2, GREY_PARAM, EXIT_SUCCESS, ne_eq, not_true_eq_false,
    if_false, if_true]
  rw [convertToGreyscale_eq _ _ _ (smalloc_length env _)]
  have h3 : ((List.range (header.width * header.height)).map
      (greyByte (rest.take (header.width * header.height * 3)))).length =
      header.width * header.height := by simp
  rw [List.take_of_length_le (by omega)]

/-- C3 (as amended).  A run in mode 1 whose header reader delivers the header
`P6 2 1 255` and leaves the six pixel bytes `[10,20,30, 200,100,50]` succeeds
and writes the header `P5 2 1 255` followed by exactly the two bytes
`[18, 124]`, the floors of `18.15` and `124.2`. -/
theorem main_sample (env : Env) (cmd arg : String) (stdin : List Byte) (h0 : ppm_header)
    (hmode : atoi arg = 1) (halloc : env.malloc_header = some h0)
    (hread : env.readHeader stdin h0 = (⟨6, 2, 1, 255⟩, [10, 20, 30, 200, 100, 50])) :
    main env [cmd, arg] stdin =
      some ⟨0, asciiBytes "P5 2 1 255\n" ++ [18, 124], "", []⟩ := by
  rw [main_grey_run env cmd arg stdin _ h0 _ hmode halloc hread rfl (by decide) (by decide)]
  decide

/-- The amended C3 with the header reader modelled from the spec, on the input
bytes `P6 2 1 255\n` followed by the six pixel bytes. -/
theorem main_sample_witness :
    main specEnv ["prog2", "1"] (asciiBytes "P6 2 1 255\n" ++ [10, 20, 30, 200, 100, 50]) =
      some ⟨0, asciiBytes "P5 2 1 255\n" ++ [18, 124], "", []⟩ :=
  main_sample specEnv "prog2" "1" (asciiBytes "P6 2 1 255\n" ++ [10, 20, 30, 200, 100, 50])
    ⟨0, 0, 0, 0⟩ (by decide) rfl (by decide)

/-- C3 (as stated) fails: on the sample input the run in mode 1 does not write
the header followed by `[19, 169]`. -/
theorem main_sample_counterexample :
    Option.map Outcome.stdout
        (main specEnv ["prog2", "1"]
          (asciiBytes "P6 2 1 255\n" ++ [10, 20, 30, 200, 100, 50])) ≠
      some (asciiBytes "P5 2 1 255\n" ++ [19, 169]) := by
  decide

/-- C4 (as amended).  `convertToSepia` applied to the single white pixel
`(255,255,255)` produces `(255,255,238)`: red (344) and green (306) are clamped
to 255, blue is `floor(238.935) = 238`, below the clamp. -/
theorem convertToSepia_white (a b c : Byte) :
    convertToSepia [255, 255, 255] [a, b, c] 1 = [255, 255, 238] := by
  have hr : toUChar (sepiaR 255 255 255) = 255 := by decide
  have hg : toUChar (sepiaG 255 255 255) = 255 := by decide
  have hb : toUChar (sepiaB 255 255 255) = 238 := by decide
  simp only [convertToSepia, List.range_succ, List.range_zero, List.nil_append,
    List.foldl_cons, List.foldl_nil, sepiaStep]
  simp only [Nat.zero_mul, Nat.zero_add, List.getD_cons_zero, List.getD_cons_succ, hr, hg, hb]
  rfl

/-- C4 (as stated) fails: the white pixel does not come out as `(255,255,255)`. -/
theorem convertToSepia_white_counterexample :
    convertToSepia [255, 255, 255] [0, 0, 0] 1 ≠ [255, 255, 255] := by
  decide

/-- C5 (as amended).  `convertToGreyscale` applied to the single white pixel
`(255,255,255)` produces the byte 255: the `double` sum is exactly `255.0`. -/
theorem convertToGreyscale_white (o : Byte) :
    convertToGreyscale [255, 255, 255] [o] 1 = [255] ∧ greyLuma 255 255 255 = 255 * ONE := by
  have hv : toUChar (pixelGrey 255 255 255) = 255 := by decide
  refine ⟨?_, by decide⟩
  simp only [convertToGreyscale, List.range_succ, List.range_zero, List.nil_append,
    List.foldl_cons, List.foldl_nil, greyStep]
  simp only [Nat.zero_mul, Nat.zero_add, List.getD_cons_zero, List.getD_cons_succ, hv]
  rfl

/-- C5 (as stated) fails: the white pixel does not come out as 254, and the
floor of the exact sum `0.299*255 + 0.587*255 + 0.114*255 = 255` is not 254
either. -/
theorem convertToGreyscale_white_counterexample :
    convertToGreyscale [255, 255, 255] [0] 1 ≠ [254] ∧
      ⌊(299 : ℚ) / 1000 * 255 + (587 : ℚ) / 1000 * 255 + (114 : ℚ) / 1000 * 255⌋₊ ≠ 254 := by
  refine ⟨by decide, ?_⟩
  norm_num

/-! ## The program: exit statuses -/

/-- C6 (as amended).  For every argument whose value as an `int`, the value
`atoi` returns, is outside {1,2}, a run with that one argument whose input has
a version-6 header and at least `3*w*h` payload bytes (`3*w*h` within the range
of `int`) terminates with ParamError (exit status 3) and writes nothing; by
then the header and the `3*w*h` payload bytes have been read from the input
stream. -/
theorem main_bad_mode (env : Env) (cmd arg : String) (stdin rest : List Byte)
    (h0 header : ppm_header) (hmode1 : atoi arg ≠ 1) (hmode2 : atoi arg ≠ 2)
    (halloc : env.malloc_header = some h0)
    (hread : env.readHeader stdin h0 = (header, rest)) (hver : header.version = 6)
    (hint : 3 * (header.width * header.height) ≤ INT_MAX)
    (hlen : 3 * (header.width * header.height) ≤ rest.length) :
    main env [cmd, arg] stdin =
      some ⟨PARAM_ERROR, [], "hey", rest.drop (header.width * header.height * 3)⟩ := by
  have h2 : min (header.width * header.height * 3) rest.length =
      header.width * header.height * 3 := by omega
  rw [main_in_range env cmd arg stdin rest h0 header halloc hread hver hint]
  simp only [hmode1, hmode2, List.length_take, h2, GREY_PARAM, SEPIA_PARAM, ne_eq,
    not_true_eq_false, if_false]

/-- The amended C6 on mode 0 with the input `P6 1 1 255\n` and three pixel
bytes, followed by one more byte that stays unread. -/
theorem main_bad_mode_witness :
    main specEnv ["prog2", "0"] (asciiBytes "P6 1 1 255\n" ++ [1, 2, 3, 4]) =
      some ⟨PARAM_ERROR, [], "hey", [4]⟩ :=
  main_bad_mode specEnv "prog2" "0" (asciiBytes "P6 1 1 255\n" ++ [1, 2, 3, 4]) [1, 2, 3, 4]
    ⟨0, 0, 0, 0⟩ ⟨6, 1, 1, 255⟩ (by decide) (by decide) rfl (by decide) rfl (by decide)
    (by decide)

/-- The mode is the `int` that `atoi` returns, not the number the argument
spells: the arguments `4294967297` and `4294967298` are modes 1 and 2, and a
run with the second converts to sepia and succeeds. -/
theorem main_wrapped_mode :
    atoi "4294967297" = 1 ∧ atoi "4294967298" = 2 ∧
      main specEnv ["prog2", "4294967298"] (asciiBytes "P6 1 1 255\n" ++ [200, 100, 50]) =
        some ⟨EXIT_SUCCESS, asciiBytes "P6 1 1 255\n" ++ [164, 146, 114], "", []⟩ := by
  decide

/-- C6 (as stated) fails: with mode 0 and a header whose tag is `P5`, the run
reads the header from the input stream and ends with VersionError (exit status
2), not ParamError. -/
theorem main_bad_mode_counterexample :
    main specEnv ["prog2", "0"] (asciiBytes "P5 1 1 255\n" ++ [1, 2, 3]) =
        some ⟨VERSION_ERROR, [], "Header version must be P6, exiting.\n", [1, 2, 3]⟩ ∧
      VERSION_ERROR ≠ PARAM_ERROR := by
  decide

/-- C7 (as amended).  For every mode and every input whose header has version 6
with width `w` and height `h` such that `3*w*h` is within the range of `int`,
but whose payload has fewer than `3*w*h` bytes, the run terminates with
CorruptError (exit status 4) and writes nothing to the output stream. -/
theorem main_truncated_payload (env : Env) (cmd arg : String) (stdin rest : List Byte)
    (h0 header : ppm_header) (halloc : env.malloc_header = some h0)
    (hread : env.readHeader stdin h0 = (header, rest)) (hver : header.version = 6)
    (hint : 3 * (header.width * header.height) ≤ INT_MAX)
    (hshort : rest.length < 3 * (header.width * header.height)) :
    main env [cmd, arg] stdin =
      some ⟨CORRUPT_ERROR, [], "Corrupt input file, quiting.\n", []⟩ := by
  have h2 : min (header.width * header.height * 3) rest.length = rest.length := by omega
  have h3 : ¬ rest.length = header.width * header.height * 3 := by omega
  have h4 : rest.drop (header.width * header.height * 3) = [] :=
    List.drop_of_length_le (by omega)
  rw [main_in_range env cmd arg stdin rest h0 header halloc hread hver hint]
  simp only [List.length_take, h2, h3, h4, ne_eq, not_false_eq_true, if_true]

/-- The amended C7 on mode 1 with the input `P6 1 1 255\n` followed by two
bytes, one fewer than the three the header promises. -/
theorem main_truncated_payload_witness :
    main specEnv ["prog2", "1"] (asciiBytes "P6 1 1 255\n" ++ [1, 2]) =
      some ⟨CORRUPT_ERROR, [], "Corrupt input file, quiting.\n", []⟩ :=
  main_truncated_payload specEnv "prog2" "1" (asciiBytes "P6 1 1 255\n" ++ [1, 2]) [1, 2]
    ⟨0, 0, 0, 0⟩ ⟨6, 1, 1, 255⟩ rfl (by decide) rfl (by decide) (by decide)

/-- C7 (as stated) fails: on the header `P6 65536 65536 255` followed by three
bytes, far fewer than `3*65536*65536`, the run in mode 1 does not end with
CorruptError.  The `int` product `width * height` wraps to 0, so no payload
byte is asked for, and the run writes the header `P5 65536 65536 255` and
succeeds. -/
theorem main_truncated_payload_counterexample :
    main specEnv ["prog2", "1"] (asciiBytes "P6 65536 65536 255\n" ++ [1, 2, 3]) =
        some ⟨EXIT_SUCCESS, asciiBytes "P5 65536 65536 255\n", "", [1, 2, 3]⟩ ∧
      [(1 : Byte), 2, 3].length < 3 * (65536 * 65536) ∧
      wrapInt (65536 * 65536) = 0 ∧ EXIT_SUCCESS ≠ CORRUPT_ERROR := by
  decide

/-- C8.  For every input whose header is read with a version different from 6,
whatever width, height and maximum value it carries, the run terminates with
VersionError (exit status 2). -/
theorem main_version_error (env : Env) (cmd arg : String) (stdin rest : List Byte)
    (h0 header : ppm_header) (halloc : env.malloc_header = some h0)
    (hread : env.readHeader stdin h0 = (header, rest)) (hver : header.version ≠ 6) :
    main env [cmd, arg] stdin =
      some ⟨VERSION_ERROR, [], "Header version must be P6, exiting.\n", rest⟩ := by
  simp only [main, halloc, hread, hver, PPM_COLOR_VERSION, ne_eq, not_false_eq_true, if_true]

/-- C8 on mode 2 with the input `P3 7 9 15\n` followed by one byte. -/
theorem main_version_error_witness :
    main specEnv ["prog2", "2"] (asciiBytes "P3 7 9 15\n" ++ [1]) =
      some ⟨VERSION_ERROR, [], "Header version must be P6, exiting.\n", [1]⟩ :=
  main_version_error specEnv "prog2" "2" (asciiBytes "P3 7 9 15\n" ++ [1]) [1]
    ⟨0, 0, 0, 0⟩ ⟨3, 7, 9, 15⟩ rfl (by decide) (by decide)

/-- Whatever the header reader does and whatever the input stream holds, a run
whose header record was allocated never ends with HeaderError: the test
`header == NULL` in `main` looks at the pointer returned by `malloc`, which the
call `readHeader(stdin, header)` cannot change. -/
theorem main_status_ne_header_error (env : Env) (argv : List String) (stdin : List Byte)
    (h0 : ppm_header) (o : Outcome) (halloc : env.malloc_header = some h0)
    (hrun : main env argv stdin = some o) : o.status ≠ HEADER_ERROR := by
  unfold main at hrun
  split at hrun
  · simp only [halloc] at hrun
    split_ifs at hrun <;> simp at hrun <;> subst hrun <;>
      simp [HEADER_ERROR, VERSION_ERROR, CORRUPT_ERROR, PARAM_ERROR, EXIT_SUCCESS]
  · simp at hrun
    subst hrun
    simp [HEADER_ERROR, PARAM_ERROR]

/-- C9 fails on the code.  With mode 1 and an empty input stream the header
parser produces no record, yet the run does not end with HeaderError: `main`
goes on to test the version field of the record it allocated (here holding
zeros) and ends with VersionError. -/
theorem main_unparsable_header :
    parse_header [] = none ∧
      main specEnv ["prog2", "1"] [] =
        some ⟨VERSION_ERROR, [], "Header version must be P6, exiting.\n", []⟩ ∧
      VERSION_ERROR ≠ HEADER_ERROR := by
  decide

/-- C10.  For every run that terminates with an error status, the sequence of
bytes written to `stdout` is empty. -/
theorem main_error_no_output (env : Env) (argv : List String) (stdin : List Byte)
    (o : Outcome) (hrun : main env argv stdin = some o) (herr : o.status ≠ EXIT_SUCCESS) :
    o.stdout = [] := by
  unfold main at hrun
  split at hrun
  · split at hrun
    · simp at hrun
      subst hrun
      rfl
    · simp only at hrun
      split_ifs at hrun <;> simp at hrun <;> subst hrun <;> first | rfl | exact absurd rfl herr
  · simp at hrun
    subst hrun
    rfl

/-- C10 on the run with mode 1 and the input `P6 1 1 255\n` followed by two
bytes, which ends with CorruptError. -/
theorem main_error_no_output_witness :
    main specEnv ["prog2", "1"] (asciiBytes "P6 1 1 255\n" ++ [1, 2]) =
        some ⟨CORRUPT_ERROR, [], "Corrupt input file, quiting.\n", []⟩ ∧
      CORRUPT_ERROR ≠ EXIT_SUCCESS ∧
      (⟨CORRUPT_ERROR, [], "Corrupt input file, quiting.\n", []⟩ : Outcome).stdout = [] :=
  ⟨by decide, by decide,
    main_error_no_output specEnv ["prog2", "1"] (asciiBytes "P6 1 1 255\n" ++ [1, 2])
      ⟨CORRUPT_ERROR, [], "Corrupt input file, quiting.\n", []⟩ (by decide) (by decide)⟩

/-- A run is defined whenever three times the pixel count of the header fits in
an `int`; every defined run ends with one of the five exit statuses. -/
theorem main_defined (env : Env) (argv : List String) (stdin : List Byte)
    (hint : ∀ h0, env.malloc_header = some h0 →
      3 * ((env.readHeader stdin h0).1.width * (env.readHeader stdin h0).1.height) ≤ INT_MAX) :
    ∃ o, main env argv stdin = some o ∧ o.status ≤ 4 := by
  match argv with
  | [] => exact ⟨_, rfl, by simp [PARAM_ERROR]⟩
  | [_] => exact ⟨_, rfl, by simp [PARAM_ERROR]⟩
  | _ :: _ :: _ :: _ => exact ⟨_, rfl, by simp [PARAM_ERROR]⟩
  | [cmd, arg] =>
    cases halloc : env.malloc_header with
    | none =>
      refine ⟨⟨HEADER_ERROR, [], "Invalid header, exiting..\n", stdin⟩, ?_, by simp [HEADER_ERROR]⟩
      simp only [main, halloc]
    | some h0 =>
      have hi := hint h0 halloc
      cases hread : env.readHeader stdin h0 with
      | mk header rest =>
        rw [hread] at hi
        by_cases hver : header.version = 6
        · rw [main_in_range env cmd arg stdin rest h0 header halloc hread hver hi]
          split_ifs <;>
            exact ⟨_, rfl, by simp [CORRUPT_ERROR, PARAM_ERROR, EXIT_SUCCESS]⟩
        · refine ⟨⟨VERSION_ERROR, [], "Header version must be P6, exiting.\n", rest⟩, ?_,
            by simp [VERSION_ERROR]⟩
          simp only [main, halloc, hread, hver, PPM_COLOR_VERSION, ne_eq, not_false_eq_true,
            if_true]

/-! ## The program: successful runs -/

/-- The sepia branch of `main`: one argument that reads as 2, a version-6
header, and a complete payload. -/
theorem main_sepia_run (env : Env) (cmd arg : String) (stdin rest : List Byte)
    (h0 header : ppm_header) (hmode : atoi arg = 2) (halloc : env.malloc_header = some h0)
    (hread : env.readHeader stdin h0 = (header, rest)) (hver : header.version = 6)
    (hint : 3 * (header.width * header.height) ≤ INT_MAX)
    (hlen : 3 * (header.width * header.height) ≤ rest.length) :
    main env [cmd, arg] stdin =
      some ⟨0, headerLine SEPIA_MAGIC_NUM header ++
          (List.range (3 * (header.width * header.height))).map
            (sepiaByte (rest.take (header.width * header.height * 3))),
        "", rest.drop (header.width * header.height * 3)⟩ := by
  have h2 : min (header.width * header.height * 3) rest.length =
      header.width * header.height * 3 := by omega
  have h4 : ¬ ((2 : Int) = 1) := by decide
  rw [main_in_range env cmd arg stdin rest h0 header halloc hread hver hint]
  simp only [hmode, List.length_take, h2, GREY_PARAM, SEPIA_PARAM, EXIT_SUCCESS, ne_eq,
    not_true_eq_false, if_false, if_true, h4]
  rw [convertToSepia_eq _ _ _ (smalloc_length env _)]
  have h3 : ((List.range (3 * (header.width * header.height))).map
      (sepiaByte (rest.take (header.width * header.height * 3)))).length =
      3 * (header.width * header.height) := by simp
  rw [List.take_of_length_le (by omega)]

/-- C13.  For every pixel count `n` and every RGB buffer of `3*n` bytes,
`convertToGreyscale` leaves exactly `n` output bytes and `convertToSepia`
exactly `3*n`, one byte and one triple per input pixel, each of them written by
the call (the result does not depend on what the output buffer held before). -/
theorem transforms_output_length (n : Nat) (inp outG outG2 outS outS2 : List Byte)
    (hin : inp.length = 3 * n) (hG : outG.length = n) (hG2 : outG2.length = n)
    (hS : outS.length = 3 * n) (hS2 : outS2.length = 3 * n) :
    (convertToGreyscale inp outG n).length = n ∧
      (convertToSepia inp outS n).length = 3 * n ∧
      (convertToSepia inp outS n).length = inp.length ∧
      convertToGreyscale inp outG n = convertToGreyscale inp outG2 n ∧
      convertToSepia inp outS n = convertToSepia inp outS2 n := by
  refine ⟨?_, ?_, ?_, ?_, ?_⟩
  · rw [convertToGreyscale_length, hG]
  · rw [convertToSepia_length, hS]
  · rw [convertToSepia_length, hS, hin]
  · rw [convertToGreyscale_eq _ _ _ hG, convertToGreyscale_eq _ _ _ hG2]
  · rw [convertToSepia_eq _ _ _ hS, convertToSepia_eq _ _ _ hS2]

/-- C13 on a buffer of two pixels. -/
theorem transforms_output_length_witness :
    (convertToGreyscale [1, 2, 3, 4, 5, 6] [0, 0] 2).length = 2 ∧
      (convertToSepia [1, 2, 3, 4, 5, 6] [0, 0, 0, 0, 0, 0] 2).length = 3 * 2 :=
  have h := transforms_output_length 2 [1, 2, 3, 4, 5, 6] [0, 0] [9, 9] [0, 0, 0, 0, 0, 0]
    [9, 9, 9, 9, 9, 9] rfl rfl rfl rfl rfl
  ⟨h.1, h.2.1⟩

/-! ## The pixel transforms: what a call writes -/

theorem greyStepMem_length (inAddr outAddr : Nat) (mem : List Byte) (i : Nat) :
    (greyStepMem inAddr outAddr mem i).length = mem.length := by
  simp [greyStepMem]

theorem convertToGreyscaleMem_length (mem : List Byte) (inAddr outAddr n : Nat) :
    (convertToGreyscaleMem mem inAddr outAddr n).length = mem.length := by
  unfold convertToGreyscaleMem
  induction n with
  | zero => rfl
  | succ n ih => simp [List.range_succ, List.foldl_append, greyStepMem_length, ih]

/-- A call of `convertToGreyscale` changes no byte outside `out[0 .. size-1]`. -/
theorem convertToGreyscaleMem_frame (mem : List Byte) (inAddr outAddr n a : Nat)
    (ha : a < outAddr ∨ outAddr + n ≤ a) :
    (convertToGreyscaleMem mem inAddr outAddr n)[a]? = mem[a]? := by
  induction n with
  | zero => rfl
  | succ n ih =>
    have hstep : convertToGreyscaleMem mem inAddr outAddr (n + 1) =
        greyStepMem inAddr outAddr (convertToGreyscaleMem mem inAddr outAddr n) n := by
      simp [convertToGreyscaleMem, List.range_succ, List.foldl_append]
    rw [hstep]
    simp only [greyStepMem]
    rw [List.getElem?_set_ne (by omega)]
    exact ih (by omega)

theorem sepiaStepMem_length (inAddr outAddr : Nat) (mem : List Byte) (i : Nat) :
    (sepiaStepMem inAddr outAddr mem i).length = mem.length := by
  simp [sepiaStepMem]

theorem convertToSepiaMem_length (mem : List Byte) (inAddr outAddr n : Nat) :
    (convertToSepiaMem mem inAddr outAddr n).length = mem.length := by
  unfold convertToSepiaMem
  induction n with
  | zero => rfl
  | succ n ih => simp [List.range_succ, List.foldl_append, sepiaStepMem_length, ih]

/-- A call of `convertToSepia` changes no byte outside `out[0 .. 3*size-1]`. -/
theorem convertToSepiaMem_frame (mem : List Byte) (inAddr outAddr n a : Nat)
    (ha : a < outAddr ∨ outAddr + 3 * n ≤ a) :
    (convertToSepiaMem mem inAddr outAddr n)[a]? = mem[a]? := by
  induction n with
  | zero => rfl
  | succ n ih =>
    have hstep : convertToSepiaMem mem inAddr outAddr (n + 1) =
        sepiaStepMem inAddr outAddr (convertToSepiaMem mem inAddr outAddr n) n := by
      simp [convertToSepiaMem, List.range_succ, List.foldl_append]
    rw [hstep]
    simp only [sepiaStepMem]
    rw [List.getElem?_set_ne (by omega), List.getElem?_set_ne (by omega),
      List.getElem?_set_ne (by omega)]
    exact ih (by omega)

/-- Two memories that agree on every address of a region have the same region. -/
theorem region_congr (m1 m2 : List Byte) (addr len : Nat)
    (h : ∀ a, addr ≤ a → a < addr + len → m1[a]? = m2[a]?) :
    region m1 addr len = region m2 addr len := by
  apply List.ext_getElem?
  intro j
  simp only [region, List.getElem?_take, List.getElem?_drop]
  split
  · exact h (addr + j) (by omega) (by omega)
  · rfl

/-- C14.  For every pixel count `n` and every memory in which the output buffer
is separate from the `3*n` bytes of the input buffer, after `convertToGreyscale`
or `convertToSepia` returns every byte of the input buffer is unchanged (and so
is every other byte outside the output buffer). -/
theorem transforms_input_unchanged (mem : List Byte) (inAddr outG outS n : Nat)
    (hG : outG + n ≤ inAddr ∨ inAddr + 3 * n ≤ outG)
    (hS : outS + 3 * n ≤ inAddr ∨ inAddr + 3 * n ≤ outS) :
    region (convertToGreyscaleMem mem inAddr outG n) inAddr (3 * n) = region mem inAddr (3 * n) ∧
      region (convertToSepiaMem mem inAddr outS n) inAddr (3 * n) = region mem inAddr (3 * n) ∧
      (∀ a, a < outG ∨ outG + n ≤ a → (convertToGreyscaleMem mem inAddr outG n)[a]? = mem[a]?) ∧
      (∀ a, a < outS ∨ outS + 3 * n ≤ a → (convertToSepiaMem mem inAddr outS n)[a]? = mem[a]?) := by
  refine ⟨?_, ?_, ?_, ?_⟩
  · exact region_congr _ _ _ _ fun a h1 h2 =>
      convertToGreyscaleMem_frame mem inAddr outG n a (by omega)
  · exact region_congr _ _ _ _ fun a h1 h2 =>
      convertToSepiaMem_frame mem inAddr outS n a (by omega)
  · exact fun a ha => convertToGreyscaleMem_frame mem inAddr outG n a ha
  · exact fun a ha => convertToSepiaMem_frame mem inAddr outS n a ha

/-- C14 on a memory of twelve bytes: the pixel `(200,100,50)` at addresses
`1..3`, the greyscale output byte at address 6 and the sepia output bytes at
addresses `8..10`. -/
theorem transforms_input_unchanged_witness :
    convertToGreyscaleMem [7, 200, 100, 50, 7, 7, 7, 7, 7, 7, 7, 7] 1 6 1 =
        [7, 200, 100, 50, 7, 7, 124, 7, 7, 7, 7, 7] ∧
      convertToSepiaMem [7, 200, 100, 50, 7, 7, 7, 7, 7, 7, 7, 7] 1 8 1 =
        [7, 200, 100, 50, 7, 7, 7, 7, 164, 146, 114, 7] ∧
      region (convertToGreyscaleMem [7, 200, 100, 50, 7, 7, 7, 7, 7, 7, 7, 7] 1 6 1) 1 (3 * 1) =
        region [7, 200, 100, 50, 7, 7, 7, 7, 7, 7, 7, 7] 1 (3 * 1) ∧
      region (convertToSepiaMem [7, 200, 100, 50, 7, 7, 7, 7, 7, 7, 7, 7] 1 8 1) 1 (3 * 1) =
        region [7, 200, 100, 50, 7, 7, 7, 7, 7, 7, 7, 7] 1 (3 * 1) :=
  have h := transforms_input_unchanged [7, 200, 100, 50, 7, 7, 7, 7, 7, 7, 7, 7] 1 6 8 1
    (by decide) (by decide)
  ⟨by decide, by decide, h.1, h.2.1⟩

/-! ## The pixel transforms: black pixels, concatenation, the signed intermediate -/

theorem getD_replicate_zero (m k : Nat) : (List.replicate m (0 : Byte)).getD k 0 = 0 := by
  rw [List.getD_eq_getElem?_getD, List.getElem?_replicate]
  split <;> rfl

theorem greyByte_black (m j : Nat) : greyByte (List.replicate m 0) j = 0 := by
  simp only [greyByte, getD_replicate_zero]
  decide

theorem sepiaByte_black (m j : Nat) : sepiaByte (List.replicate m 0) j = 0 := by
  have hr : toUChar (sepiaR 0 0 0) = 0 := by decide
  have hg : toUChar (sepiaG 0 0 0) = 0 := by decide
  have hb : toUChar (sepiaB 0 0 0) = 0 := by decide
  simp only [sepiaByte, getD_replicate_zero, hr, hg, hb]
  split_ifs <;> rfl

theorem map_range_const (f : Nat → Byte) (n : Nat) (c : Byte) (h : ∀ j, f j = c) :
    (List.range n).map f = List.replicate n c := by
  apply List.ext_getElem?
  intro j
  rw [List.getElem?_map, List.getElem?_replicate]
  by_cases hj : j < n
  · rw [List.getElem?_range hj, if_pos hj]
    simp [h]
  · rw [List.getElem?_eq_none (by simp; omega), if_neg hj]
    rfl

/-- C15.  For every pixel count `n`, a buffer of `n` black pixels (all `3*n`
bytes zero) is mapped by `convertToGreyscale` to `n` zero bytes and by
`convertToSepia` to `3*n` zero bytes. -/
theorem transforms_black (n : Nat) (outG outS : List Byte)
    (hG : outG.length = n) (hS : outS.length = 3 * n) :
    convertToGreyscale (List.replicate (3 * n) 0) outG n = List.replicate n 0 ∧
      convertToSepia (List.replicate (3 * n) 0) outS n = List.replicate (3 * n) 0 := by
  constructor
  · rw [convertToGreyscale_eq _ _ _ hG]
    exact map_range_const _ _ _ (greyByte_black _)
  · rw [convertToSepia_eq _ _ _ hS]
    exact map_range_const _ _ _ (sepiaByte_black _)

/-- C15 on two black pixels, with output buffers that held other bytes. -/
theorem transforms_black_witness :
    convertToGreyscale (List.replicate (3 * 2) 0) [9, 9] 2 = List.replicate 2 0 ∧
      convertToSepia (List.replicate (3 * 2) 0) [9, 9, 9, 9, 9, 9] 2 =
        List.replicate (3 * 2) 0 :=
  transforms_black 2 [9, 9] [9, 9, 9, 9, 9, 9] rfl rfl

theorem getD_append_lt (a b : List Byte) (k : Nat) (h : k < a.length) :
    (a ++ b).getD k 0 = a.getD k 0 := by
  rw [List.getD_eq_getElem?_getD, List.getD_eq_getElem?_getD, List.getElem?_append_left h]

theorem getD_append_ge (a b : List Byte) (k : Nat) (h : a.length ≤ k) :
    (a ++ b).getD k 0 = b.getD (k - a.length) 0 := by
  rw [List.getD_eq_getElem?_getD, List.getD_eq_getElem?_getD, List.getElem?_append_right h]

theorem greyByte_append_left (a b : List Byte) (m j : Nat) (ha : a.length = 3 * m)
    (hj : j < m) : greyByte (a ++ b) j = greyByte a j := by
  simp only [greyByte]
  rw [getD_append_lt a b (j * 3) (by omega), getD_append_lt a b (j * 3 + 1) (by omega),
    getD_append_lt a b (j * 3 + 2) (by omega)]

theorem greyByte_append_right (a b : List Byte) (m j : Nat) (ha : a.length = 3 * m) :
    greyByte (a ++ b) (m + j) = greyByte b j := by
  simp only [greyByte]
  rw [getD_append_ge a b ((m + j) * 3) (by omega),
    getD_append_ge a b ((m + j) * 3 + 1) (by omega),
    getD_append_ge a b ((m + j) * 3 + 2) (by omega)]
  have e0 : (m + j) * 3 - a.length = j * 3 := by omega
  have e1 : (m + j) * 3 + 1 - a.length = j * 3 + 1 := by omega
  have e2 : (m + j) * 3 + 2 - a.length = j * 3 + 2 := by omega
  rw [e0, e1, e2]

theorem sepiaByte_append_left (a b : List Byte) (m j : Nat) (ha : a.length = 3 * m)
    (hj : j < 3 * m) : sepiaByte (a ++ b) j = sepiaByte a j := by
  simp only [sepiaByte]
  rw [getD_append_lt a b (j / 3 * 3) (by omega), getD_append_lt a b (j / 3 * 3 + 1) (by omega),
    getD_append_lt a b (j / 3 * 3 + 2) (by omega)]

theorem sepiaByte_append_right (a b : List Byte) (m j : Nat) (ha : a.length = 3 * m) :
    sepiaByte (a ++ b) (3 * m + j) = sepiaByte b j := by
  have q : (3 * m + j) / 3 = m + j / 3 := by omega
  have r : (3 * m + j) % 3 = j % 3 := by omega
  simp only [sepiaByte, q, r]
  rw [getD_append_ge a b ((m + j / 3) * 3) (by omega),
    getD_append_ge a b ((m + j / 3) * 3 + 1) (by omega),
    getD_append_ge a b ((m + j / 3) * 3 + 2) (by omega)]
  have e0 : (m + j / 3) * 3 - a.length = j / 3 * 3 := by omega
  have e1 : (m + j / 3) * 3 + 1 - a.length = j / 3 * 3 + 1 := by omega
  have e2 : (m + j / 3) * 3 + 2 - a.length = j / 3 * 3 + 2 := by omega
  rw [e0, e1, e2]

theorem map_range_append (f g h : Nat → Byte) (m n : Nat) (hl : ∀ j, j < m → f j = g j)
    (hr : ∀ j, f (m + j) = h j) :
    (List.range (m + n)).map f = (List.range m).map g ++ (List.range n).map h := by
  apply List.ext_getElem?
  intro j
  by_cases hj : j < m
  · rw [List.getElem?_append_left (by simpa using hj), List.getElem?_map, List.getElem?_map,
      List.getElem?_range (by omega), List.getElem?_range hj]
    simp [hl j hj]
  · have hm : m ≤ j := by omega
    rw [List.getElem?_append_right (by simpa using hm), List.getElem?_map, List.getElem?_map]
    simp only [List.length_map, List.length_range]
    by_cases hjn : j < m + n
    · rw [List.getElem?_range hjn, List.getElem?_range (by omega)]
      have e : j = m + (j - m) := by omega
      simp only [Option.map_some']
      rw [← hr (j - m), ← e]
    · rw [List.getElem?_eq_none (by simp; omega), List.getElem?_eq_none (by simp; omega)]
      rfl

/-- C16.  Neither transform has a cross-pixel dependency: for RGB buffers `a` of
`m` pixels and `b` of `n` pixels, `convertToGreyscale` of `a ++ b` is
`convertToGreyscale a ++ convertToGreyscale b`, and likewise for
`convertToSepia`. -/
theorem transforms_append (m n : Nat) (a b gA gB gAB sA sB sAB : List Byte)
    (ha : a.length = 3 * m) (hb : b.length = 3 * n)
    (hgA : gA.length = m) (hgB : gB.length = n) (hgAB : gAB.length = m + n)
    (hsA : sA.length = 3 * m) (hsB : sB.length = 3 * n) (hsAB : sAB.length = 3 * (m + n)) :
    convertToGreyscale (a ++ b) gAB (m + n) =
        convertToGreyscale a gA m ++ convertToGreyscale b gB n ∧
      convertToSepia (a ++ b) sAB (m + n) = convertToSepia a sA m ++ convertToSepia b sB n := by
  have _hb : b.length = 3 * n := hb
  constructor
  · rw [convertToGreyscale_eq _ _ _ hgAB, convertToGreyscale_eq _ _ _ hgA,
      convertToGreyscale_eq _ _ _ hgB]
    exact map_range_append _ _ _ m n (fun j hj => greyByte_append_left a b m j ha hj)
      (fun j => greyByte_append_right a b m j ha)
  · rw [convertToSepia_eq _ _ _ hsAB, convertToSepia_eq _ _ _ hsA, convertToSepia_eq _ _ _ hsB,
      Nat.mul_add]
    exact map_range_append _ _ _ (3 * m) (3 * n)
      (fun j hj => sepiaByte_append_left a b m j ha hj)
      (fun j => sepiaByte_append_right a b m j ha)

/-- C16 on a one-pixel buffer followed by a two-pixel buffer. -/
theorem transforms_append_witness :
    convertToGreyscale ([1, 1, 1] ++ [10, 20, 30, 200, 100, 50]) [0, 0, 0] (1 + 2) =
        convertToGreyscale [1, 1, 1] [0] 1 ++
          convertToGreyscale [10, 20, 30, 200, 100, 50] [0, 0] 2 ∧
      convertToSepia ([1, 1, 1] ++ [10, 20, 30, 200, 100, 50]) [0, 0, 0, 0, 0, 0, 0, 0, 0]
          (1 + 2) =
        convertToSepia [1, 1, 1] [0, 0, 0] 1 ++
          convertToSepia [10, 20, 30, 200, 100, 50] [0, 0, 0, 0, 0, 0] 2 :=
  transforms_append 1 2 [1, 1, 1] [10, 20, 30, 200, 100, 50] [0] [0, 0] [0, 0, 0] [0, 0, 0]
    [0, 0, 0, 0, 0, 0] [0, 0, 0, 0, 0, 0, 0, 0, 0] rfl rfl rfl rfl rfl rfl rfl rfl

/-- The byte stored through the signed `char` is the clamped truncated luma. -/
theorem toUChar_pixelGrey_eq_intended (r g b : Byte) :
    toUChar (pixelGrey r g b) = greyByteIntended r g b := by
  apply Fin.ext
  rw [toUChar_pixelGrey]
  have h := (greyLuma_trunc r g b).1
  have hl : lumaFloor r.val g.val b.val < 256 := by
    have := r.isLt; have := g.isLt; have := b.isLt
    simp only [lumaFloor]; omega
  simp only [greyByteIntended]
  omega

/-- C17.  The signed 8-bit intermediate of `convertToGreyscale` is harmless: for
every RGB buffer the code (truncate the luma, narrow to a signed 8-bit value
with wrap-around, store it reinterpreted as an unsigned byte) produces byte for
byte the output of the intended transform, which stores the truncated luma
clamped to `0..255`. -/
theorem convertToGreyscale_eq_intended (inp out : List Byte) (size : Nat) :
    convertToGreyscale inp out size = convertToGreyscaleIntended inp out size := by
  have hstep : greyStep inp = greyStepIntended inp := by
    funext o i
    simp only [greyStep, greyStepIntended, toUChar_pixelGrey_eq_intended]
  simp only [convertToGreyscale, convertToGreyscaleIntended, hstep]

/-! ## The flat-memory loops against the buffer loops -/

theorem region_length (mem : List Byte) (addr len : Nat) (h : addr + len ≤ mem.length) :
    (region mem addr len).length = len := by
  simp only [region, List.length_take, List.length_drop]
  omega

theorem region_getD (mem : List Byte) (addr len k : Nat) (h : k < len) :
    (region mem addr len).getD k 0 = mem.getD (addr + k) 0 := by
  simp only [region, List.getD_eq_getElem?_getD, List.getElem?_take, List.getElem?_drop, h,
    if_true]

theorem getD_congr (m1 m2 : List Byte) (a : Nat) (h : m1[a]? = m2[a]?) :
    m1.getD a 0 = m2.getD a 0 := by
  rw [List.getD_eq_getElem?_getD, List.getD_eq_getElem?_getD, h]

/-- The byte a call of `convertToGreyscale` leaves at `out[j]` of a flat memory
whose output buffer is separate from the input buffer. -/
theorem convertToGreyscaleMem_out (mem : List Byte) (inAddr outAddr : Nat) :
    ∀ n, (outAddr + n ≤ inAddr ∨ inAddr + 3 * n ≤ outAddr) → outAddr + n ≤ mem.length →
      ∀ j, j < n → (convertToGreyscaleMem mem inAddr outAddr n)[outAddr + j]? =
        some (toUChar (pixelGrey (mem.getD (inAddr + j * 3) 0) (mem.getD (inAddr + j * 3 + 1) 0)
          (mem.getD (inAddr + j * 3 + 2) 0))) := by
  intro n
  induction n with
  | zero => intro _ _ j hj; omega
  | succ n ih =>
    intro hsep hlen j hj
    have hstep : convertToGreyscaleMem mem inAddr outAddr (n + 1) =
        greyStepMem inAddr outAddr (convertToGreyscaleMem mem inAddr outAddr n) n := by
      simp [convertToGreyscaleMem, List.range_succ, List.foldl_append]
    rw [hstep]
    simp only [greyStepMem]
    by_cases hjn : j = n
    · subst hjn
      rw [List.getElem?_set_self (by rw [convertToGreyscaleMem_length]; omega)]
      rw [getD_congr _ mem _ (convertToGreyscaleMem_frame mem inAddr outAddr j _ (by omega)),
        getD_congr _ mem _ (convertToGreyscaleMem_frame mem inAddr outAddr j _ (by omega)),
        getD_congr _ mem _ (convertToGreyscaleMem_frame mem inAddr outAddr j _ (by omega))]
    · rw [List.getElem?_set_ne (by omega)]
      exact ih (by omega) (by omega) j (by omega)

/-- On a flat memory in which the output buffer is separate from the input
buffer, a call of `convertToGreyscale` leaves in the output buffer what the
buffer-level function computes from the contents of the two buffers. -/
theorem convertToGreyscaleMem_region (mem : List Byte) (inAddr outAddr n : Nat)
    (hsep : outAddr + n ≤ inAddr ∨ inAddr + 3 * n ≤ outAddr)
    (hout : outAddr + n ≤ mem.length) :
    region (convertToGreyscaleMem mem inAddr outAddr n) outAddr n =
      convertToGreyscale (region mem inAddr (3 * n)) (region mem outAddr n) n := by
  rw [convertToGreyscale_eq _ _ _ (region_length mem outAddr n hout)]
  apply List.ext_getElem?
  intro j
  simp only [region, List.getElem?_take, List.getElem?_drop, List.getElem?_map]
  by_cases hj : j < n
  · rw [if_pos hj, convertToGreyscaleMem_out mem inAddr outAddr n hsep hout j hj,
      List.getElem?_range hj]
    simp only [Option.map_some', greyByte]
    have e0 := region_getD mem inAddr (3 * n) (j * 3) (by omega)
    have e1 := region_getD mem inAddr (3 * n) (j * 3 + 1) (by omega)
    have e2 := region_getD mem inAddr (3 * n) (j * 3 + 2) (by omega)
    simp only [region] at e0 e1 e2
    rw [e0, e1, e2]
    rfl
  · rw [if_neg hj, List.getElem?_eq_none (by simp; omega)]
    rfl

/-- The bytes a call of `convertToSepia` leaves at `out[3j]`, `out[3j+1]`,
`out[3j+2]` of a flat memory whose output buffer is separate from the input
buffer. -/
theorem convertToSepiaMem_out (mem : List Byte) (inAddr outAddr : Nat) :
    ∀ n, (outAddr + 3 * n ≤ inAddr ∨ inAddr + 3 * n ≤ outAddr) →
      outAddr + 3 * n ≤ mem.length →
      ∀ j, j < n →
        (convertToSepiaMem mem inAddr outAddr n)[outAddr + j * 3]? =
          some (toUChar (sepiaR (mem.getD (inAddr + j * 3) 0) (mem.getD (inAddr + j * 3 + 1) 0)
            (mem.getD (inAddr + j * 3 + 2) 0))) ∧
        (convertToSepiaMem mem inAddr outAddr n)[outAddr + j * 3 + 1]? =
          some (toUChar (sepiaG (mem.getD (inAddr + j * 3) 0) (mem.getD (inAddr + j * 3 + 1) 0)
            (mem.getD (inAddr + j * 3 + 2) 0))) ∧
        (convertToSepiaMem mem inAddr outAddr n)[outAddr + j * 3 + 2]? =
          some (toUChar (sepiaB (mem.getD (inAddr + j * 3) 0) (mem.getD (inAddr + j * 3 + 1) 0)
            (mem.getD (inAddr + j * 3 + 2) 0))) := by
  intro n
  induction n with
  | zero => intro _ _ j hj; omega
  | succ n ih =>
    intro hsep hlen j hj
    have hstep : convertToSepiaMem mem inAddr outAddr (n + 1) =
        sepiaStepMem inAddr outAddr (convertToSepiaMem mem inAddr outAddr n) n := by
      simp [convertToSepiaMem, List.range_succ, List.foldl_append]
    rw [hstep]
    simp only [sepiaStepMem]
    by_cases hjn : j = n
    · subst hjn
      have hl := convertToSepiaMem_length mem inAddr outAddr j
      rw [getD_congr _ mem _ (convertToSepiaMem_frame mem inAddr outAddr j _ (by omega)),
        getD_congr _ mem _ (convertToSepiaMem_frame mem inAddr outAddr j _ (by omega)),
        getD_congr _ mem _ (convertToSepiaMem_frame mem inAddr outAddr j _ (by omega))]
      refine ⟨?_, ?_, ?_⟩
      · rw [List.getElem?_set_ne (by omega), List.getElem?_set_ne (by omega),
          List.getElem?_set_self (by omega)]
      · rw [List.getElem?_set_ne (by omega),
          List.getElem?_set_self (by rw [List.length_set]; omega)]
      · rw [List.getElem?_set_self (by rw [List.length_set, List.length_set]; omega)]
    · have h := ih (by omega) (by omega) j (by omega)
      refine ⟨?_, ?_, ?_⟩
      · rw [List.getElem?_set_ne (by omega), List.getElem?_set_ne (by omega),
          List.getElem?_set_ne (by omega)]
        exact h.1
      · rw [List.getElem?_set_ne (by omega), List.getElem?_set_ne (by omega),
          List.getElem?_set_ne (by omega)]
        exact h.2.1
      · rw [List.getElem?_set_ne (by omega), List.getElem?_set_ne (by omega),
          List.getElem?_set_ne (by omega)]
        exact h.2.2

/-- On a flat memory in which the output buffer is separate from the input
buffer, a call of `convertToSepia` leaves in the output buffer what the
buffer-level function computes from the contents of the two buffers. -/
theorem convertToSepiaMem_region (mem : List Byte) (inAddr outAddr n : Nat)
    (hsep : outAddr + 3 * n ≤ inAddr ∨ inAddr + 3 * n ≤ outAddr)
    (hout : outAddr + 3 * n ≤ mem.length) :
    region (convertToSepiaMem mem inAddr outAddr n) outAddr (3 * n) =
      convertToSepia (region mem inAddr (3 * n)) (region mem outAddr (3 * n)) n := by
  rw [convertToSepia_eq _ _ _ (region_length mem outAddr (3 * n) hout)]
  apply List.ext_getElem?
  intro j
  simp only [region, List.getElem?_take, List.getElem?_drop, List.getElem?_map]
  by_cases hj : j < 3 * n
  · rw [if_pos hj, List.getElem?_range hj]
    have hq : j / 3 < n := by omega
    obtain ⟨h0, h1, h2⟩ := convertToSepiaMem_out mem inAddr outAddr n hsep hout (j / 3) hq
    have e0 := region_getD mem inAddr (3 * n) (j / 3 * 3) (by omega)
    have e1 := region_getD mem inAddr (3 * n) (j / 3 * 3 + 1) (by omega)
    have e2 := region_getD mem inAddr (3 * n) (j / 3 * 3 + 2) (by omega)
    simp only [region] at e0 e1 e2
    simp only [Option.map_some', sepiaByte, e0, e1, e2]
    have hcases : j % 3 = 0 ∨ j % 3 = 1 ∨ j % 3 = 2 := by omega
    rcases hcases with hm | hm | hm
    · have ej : outAddr + j = outAddr + j / 3 * 3 := by omega
      rw [ej, h0]
      simp [hm, Nat.add_assoc]
    · have ej : outAddr + j = outAddr + j / 3 * 3 + 1 := by omega
      rw [ej, h1]
      simp [hm, Nat.add_assoc]
    · have ej : outAddr + j = outAddr + j / 3 * 3 + 2 := by omega
      rw [ej, h2]
      simp [hm, Nat.add_assoc]
  · rw [if_neg hj, List.getElem?_eq_none (by simp; omega)]
    rfl

/-! ## The program: order of the checks -/

/-- C18 (as amended).  With the mode read as the `int` that `atoi` returns for
the argument, and for a header whose `3*width*height` is within the range of
`int` whenever its version is 6, the exit status of a run is decided in this
order: an argument count other than one parameter gives ParamError (3);
otherwise a header version different from 6 gives VersionError (2); otherwise a
payload shorter than `3*width*height` bytes gives CorruptError (4); otherwise a
mode outside {1,2} gives ParamError (3); otherwise the run succeeds (0).  The
run succeeds if and only if there is exactly one parameter, the version is 6,
at least `3*width*height` payload bytes are available and the mode is 1 or 2. -/
theorem main_status_precedence (env : Env) (argv : List String) (stdin rest : List Byte)
    (h0 header : ppm_header) (halloc : env.malloc_header = some h0)
    (hread : env.readHeader stdin h0 = (header, rest))
    (hint : header.version = 6 → 3 * (header.width * header.height) ≤ INT_MAX) :
    ∃ o, main env argv stdin = some o ∧
      o.status =
        (if argv.length ≠ 2 then PARAM_ERROR
        else if header.version ≠ 6 then VERSION_ERROR
        else if rest.length < 3 * (header.width * header.height) then CORRUPT_ERROR
        else if atoi (argv.getD 1 "") ≠ 1 ∧ atoi (argv.getD 1 "") ≠ 2 then PARAM_ERROR
        else EXIT_SUCCESS) ∧
      (o.status = EXIT_SUCCESS ↔
        argv.length = 2 ∧ header.version = 6 ∧
          3 * (header.width * header.height) ≤ rest.length ∧
          (atoi (argv.getD 1 "") = 1 ∨ atoi (argv.getD 1 "") = 2)) := by
  have hargc : ∀ o : Outcome, argv.length ≠ 2 → o.status = PARAM_ERROR →
      o.status = (if argv.length ≠ 2 then PARAM_ERROR
        else if header.version ≠ 6 then VERSION_ERROR
        else if rest.length < 3 * (header.width * header.height) then CORRUPT_ERROR
        else if atoi (argv.getD 1 "") ≠ 1 ∧ atoi (argv.getD 1 "") ≠ 2 then PARAM_ERROR
        else EXIT_SUCCESS) ∧
      (o.status = EXIT_SUCCESS ↔
        argv.length = 2 ∧ header.version = 6 ∧
          3 * (header.width * header.height) ≤ rest.length ∧
          (atoi (argv.getD 1 "") = 1 ∨ atoi (argv.getD 1 "") = 2)) := by
    intro o hlen hst
    refine ⟨by rw [if_pos hlen, hst], ?_⟩
    rw [hst]
    constructor
    · intro h; exact absurd h (by decide)
    · intro h; exact absurd h.1 hlen
  match argv, hargc with
  | [], hargc => exact ⟨_, rfl, hargc _ (by simp) rfl⟩
  | [_], hargc => exact ⟨_, rfl, hargc _ (by simp) rfl⟩
  | _ :: _ :: _ :: _, hargc => exact ⟨_, rfl, hargc _ (by simp) rfl⟩
  | [cmd, arg], _ =>
    have hlen2 : ¬ ([cmd, arg].length ≠ 2) := by simp
    have harg : [cmd, arg].getD 1 "" = arg := rfl
    rw [harg]
    simp only [hlen2, if_false]
    by_cases hver : header.version = 6
    · have hi := hint hver
      by_cases hshort : rest.length < 3 * (header.width * header.height)
      · refine ⟨⟨CORRUPT_ERROR, [], "Corrupt input file, quiting.\n", []⟩, ?_, ?_, ?_⟩
        · have h2 : min (header.width * header.height * 3) rest.length = rest.length := by
            omega
          have h3 : ¬ rest.length = header.width * header.height * 3 := by omega
          have h4 : rest.drop (header.width * header.height * 3) = [] :=
            List.drop_of_length_le (by omega)
          rw [main_in_range env cmd arg stdin rest h0 header halloc hread hver hi]
          simp only [List.length_take, h2, h3, h4, ne_eq, not_false_eq_true, if_true]
        · simp [hver, hshort]
        · simp only [hver, true_and]
          constructor
          · intro h; exact absurd h (by decide)
          · intro h; omega
      · have hlen : 3 * (header.width * header.height) ≤ rest.length := by omega
        by_cases hm1 : atoi arg = 1
        · refine ⟨_, main_grey_run env cmd arg stdin rest h0 header hm1 halloc hread hver hi
            hlen, ?_, ?_⟩
          · simp [hver, hshort, hm1, EXIT_SUCCESS]
          · simp [hver, hlen, hm1, EXIT_SUCCESS]
        · by_cases hm2 : atoi arg = 2
          · refine ⟨_, main_sepia_run env cmd arg stdin rest h0 header hm2 halloc hread hver hi
              hlen, ?_, ?_⟩
            · simp [hver, hshort, hm2, EXIT_SUCCESS]
            · simp [hver, hlen, hm2, EXIT_SUCCESS]
          · refine ⟨⟨PARAM_ERROR, [], "hey",
              rest.drop (header.width * header.height * 3)⟩, ?_, ?_, ?_⟩
            · have h2 : min (header.width * header.height * 3) rest.length =
                  header.width * header.height * 3 := by omega
              rw [main_in_range env cmd arg stdin rest h0 header halloc hread hver hi]
              simp only [hm1, hm2, List.length_take, h2, GREY_PARAM, SEPIA_PARAM, ne_eq,
                not_true_eq_false, if_false]
            · simp [hver, hshort, hm1, hm2]
            · simp [hm1, hm2, PARAM_ERROR, EXIT_SUCCESS]
    · refine ⟨⟨VERSION_ERROR, [], "Header version must be P6, exiting.\n", rest⟩, ?_, ?_, ?_⟩
      · simp only [main, halloc, hread, hver, PPM_COLOR_VERSION, ne_eq, not_false_eq_true,
          if_true]
      · simp [hver]
      · simp [hver, VERSION_ERROR, EXIT_SUCCESS]

/-- The amended C18 on a run with mode 3 and the input `P6 1 1 255\n` followed by two
bytes: the short payload is reported (CorruptError) before the bad mode. -/
theorem main_status_precedence_witness :
    ∃ o, main specEnv ["prog2", "3"] (asciiBytes "P6 1 1 255\n" ++ [1, 2]) = some o ∧
      o.status = CORRUPT_ERROR := by
  obtain ⟨o, h1, h2, -⟩ :=
    main_status_precedence specEnv ["prog2", "3"] (asciiBytes "P6 1 1 255\n" ++ [1, 2]) [1, 2]
      ⟨0, 0, 0, 0⟩ ⟨6, 1, 1, 255⟩ rfl (by decide) (by decide)
  exact ⟨o, h1, by rw [h2]; decide⟩

/-- C18 (as stated) fails: with one parameter, mode 2 and the header
`P6 65536 65536 255` followed by no payload byte at all, the run succeeds and
writes the header, although `3*65536*65536` payload bytes are not available:
the `int` product `width * height` wraps to 0, so the length check asks for no
byte. -/
theorem main_status_precedence_counterexample :
    main specEnv ["prog2", "2"] (asciiBytes "P6 65536 65536 255\n") =
        some ⟨EXIT_SUCCESS, asciiBytes "P6 65536 65536 255\n", "", []⟩ ∧
      ¬ (3 * (65536 * 65536) ≤ ([] : List Byte).length) ∧
      parse_header (asciiBytes "P6 65536 65536 255\n") = some (⟨6, 65536, 65536, 255⟩, []) := by
  decide

/-! ## The pixel transforms: order of the sepia channels, range of the grey byte -/

/-- Before clamping, the red sepia sum of a pixel is at least the green one and
the green one at least the blue one: the rows of weights are ordered
coefficient by coefficient by more than the rounding can undo. -/
theorem sepiaRaw_order (r g b : Byte) :
    sepiaRaw (dlit 272 1000) (dlit 534 1000) (dlit 131 1000) r g b ≤
        sepiaRaw (dlit 349 1000) (dlit 686 1000) (dlit 168 1000) r g b ∧
      sepiaRaw (dlit 349 1000) (dlit 686 1000) (dlit 168 1000) r g b ≤
        sepiaRaw (dlit 393 1000) (dlit 769 1000) (dlit 189 1000) r g b := by
  by_cases hz : r = 0 ∧ g = 0 ∧ b = 0
  · obtain ⟨rfl, rfl, rfl⟩ := hz
    decide
  · obtain ⟨r, hr⟩ := r
    obtain ⟨g, hg⟩ := g
    obtain ⟨b, hb⟩ := b
    have hnz : ¬ (r = 0 ∧ g = 0 ∧ b = 0) := by
      intro h
      apply hz
      obtain ⟨rfl, rfl, rfl⟩ := h
      exact ⟨rfl, rfl, rfl⟩
    simp only [sepiaRaw, dadd, dmul, dtrunc, dlit_393, dlit_769, dlit_189, dlit_349, dlit_686,
      dlit_168, dlit_272, dlit_534, dlit_131, ONE, FRAC_BITS]
    norm_num only
    have a1 := roundDouble_close65 (28318634456905680 * r) (by omega)
    generalize roundDouble (28318634456905680 * r) = p1 at *
    have a2 := roundDouble_close65 (55412289815166584 * g) (by omega)
    generalize roundDouble (55412289815166584 * g) = p2 at *
    have a3 := roundDouble_close65 (13618885273168380 * b) (by omega)
    generalize roundDouble (13618885273168380 * b) = p3 at *
    have a4 := roundDouble_close65 (p1 + p2) (by omega)
    generalize roundDouble (p1 + p2) = s1 at *
    have a5 := roundDouble_close65 (s1 + p3) (by omega)
    generalize roundDouble (s1 + p3) = dR at *
    have b1 := roundDouble_close65 (25148100319236848 * r) (by omega)
    generalize roundDouble (25148100319236848 * r) = q1 at *
    have b2 := roundDouble_close65 (49431509510018568 * g) (by omega)
    generalize roundDouble (49431509510018568 * g) = q2 at *
    have b3 := roundDouble_close65 (12105675798371894 * b) (by omega)
    generalize roundDouble (12105675798371894 * b) = q3 at *
    have b4 := roundDouble_close65 (q1 + q2) (by omega)
    generalize roundDouble (q1 + q2) = s2 at *
    have b5 := roundDouble_close65 (s2 + q3) (by omega)
    generalize roundDouble (s2 + q3) = dG at *
    have c1 := roundDouble_close65 (19599665578316400 * r) (by omega)
    generalize roundDouble (19599665578316400 * r) = t1 at *
    have c2 := roundDouble_close65 (38478755216253520 * g) (by omega)
    generalize roundDouble (38478755216253520 * g) = t2 at *
    have c3 := roundDouble_close65 (9439544818968560 * b) (by omega)
    generalize roundDouble (9439544818968560 * b) = t3 at *
    have c4 := roundDouble_close65 (t1 + t2) (by omega)
    generalize roundDouble (t1 + t2) = s3 at *
    have c5 := roundDouble_close65 (s3 + t3) (by omega)
    generalize roundDouble (s3 + t3) = dB at *
    have hRG : dG ≤ dR := by omega
    have hGB : dB ≤ dG := by omega
    have k1 : dB / 72057594037927936 ≤ dG / 72057594037927936 := Nat.div_le_div_right hGB
    have k2 : dG / 72057594037927936 ≤ dR / 72057594037927936 := Nat.div_le_div_right hRG
    exact ⟨by exact_mod_cast k1, by exact_mod_cast k2⟩

/-- Clamping at 255 and storing in an `unsigned char` keep the order of two
non-negative values. -/
theorem toUChar_clamp255_mono (x y : Int) (hx : 0 ≤ x) (hxy : x ≤ y) :
    (toUChar (clamp255 x)).val ≤ (toUChar (clamp255 y)).val := by
  simp only [toUChar, clamp255]
  split_ifs <;> omega

theorem sepiaRaw_nonneg (a b c : Nat) (r g bl : Byte) : 0 ≤ sepiaRaw a b c r g bl := by
  simp only [sepiaRaw]
  exact Int.natCast_nonneg _

/-- C19.  The sepia output is channel-ordered: for every pixel `i` of every RGB
buffer, the triple `(r, g, b)` that `convertToSepia` writes at `out[3i]`,
`out[3i+1]`, `out[3i+2]` satisfies `r ≥ g ≥ b`. -/
theorem convertToSepia_ordered (n : Nat) (inp out : List Byte) (i : Nat)
    (hin : inp.length = 3 * n) (hout : out.length = 3 * n) (hi : i < n) :
    ∃ vr vg vb : Byte,
      (convertToSepia inp out n)[3 * i]? = some vr ∧
      (convertToSepia inp out n)[3 * i + 1]? = some vg ∧
      (convertToSepia inp out n)[3 * i + 2]? = some vb ∧
      vb.val ≤ vg.val ∧ vg.val ≤ vr.val := by
  have _hpix : i * 3 + 2 < inp.length := by omega
  have e0 : (3 * i) / 3 = i := by omega
  have e1 : (3 * i + 1) / 3 = i := by omega
  have e2 : (3 * i + 2) / 3 = i := by omega
  have m0 : (3 * i) % 3 = 0 := by omega
  have m1 : (3 * i + 1) % 3 = 1 := by omega
  have m2 : (3 * i + 2) % 3 = 2 := by omega
  have hord := sepiaRaw_order (inp.getD (i * 3) 0) (inp.getD (i * 3 + 1) 0)
    (inp.getD (i * 3 + 2) 0)
  refine ⟨toUChar (sepiaR (inp.getD (i * 3) 0) (inp.getD (i * 3 + 1) 0) (inp.getD (i * 3 + 2) 0)),
    toUChar (sepiaG (inp.getD (i * 3) 0) (inp.getD (i * 3 + 1) 0) (inp.getD (i * 3 + 2) 0)),
    toUChar (sepiaB (inp.getD (i * 3) 0) (inp.getD (i * 3 + 1) 0) (inp.getD (i * 3 + 2) 0)),
    ?_, ?_, ?_, ?_, ?_⟩
  · rw [convertToSepia_getElem?, if_pos ⟨by omega, by omega⟩]
    simp [sepiaByte, e0, m0]
  · rw [convertToSepia_getElem?, if_pos ⟨by omega, by omega⟩]
    simp [sepiaByte, e1, m1]
  · rw [convertToSepia_getElem?, if_pos ⟨by omega, by omega⟩]
    simp [sepiaByte, e2, m2]
  · exact toUChar_clamp255_mono _ _ (sepiaRaw_nonneg _ _ _ _ _ _) hord.1
  · exact toUChar_clamp255_mono _ _ (sepiaRaw_nonneg _ _ _ _ _ _) hord.2

/-- C19 on the pixel `(0,0,255)`, whose sepia triple is `(48, 42, 33)`. -/
theorem convertToSepia_ordered_witness :
    ∃ vr vg vb : Byte,
      (convertToSepia [0, 0, 255] [0, 0, 0] 1)[3 * 0]? = some vr ∧
      (convertToSepia [0, 0, 255] [0, 0, 0] 1)[3 * 0 + 1]? = some vg ∧
      (convertToSepia [0, 0, 255] [0, 0, 0] 1)[3 * 0 + 2]? = some vb ∧
      vb.val ≤ vg.val ∧ vg.val ≤ vr.val ∧
      convertToSepia [0, 0, 255] [0, 0, 0] 1 = [48, 42, 33] := by
  obtain ⟨vr, vg, vb, h0, h1, h2, h3, h4⟩ :=
    convertToSepia_ordered 1 [0, 0, 255] [0, 0, 0] 0 rfl rfl (by decide)
  exact ⟨vr, vg, vb, h0, h1, h2, h3, h4, by decide⟩

/-- C20 (as amended).  For every pixel `(R,G,B)` of every RGB buffer the byte
`v` written by `convertToGreyscale` satisfies `min(R,G,B) - 1 ≤ v ≤ max(R,G,B)`,
and `min(R,G,B) ≤ v` whenever `299*R + 587*G + 114*B` is not a multiple of 1000;
a neutral pixel `(x,x,x)` is mapped to `x` or to `x - 1`. -/
theorem convertToGreyscale_range (n : Nat) (inp out : List Byte) (i : Nat)
    (hin : inp.length = 3 * n) (hout : out.length = n) (hi : i < n) :
    ∃ v : Byte, (convertToGreyscale inp out n)[i]? = some v ∧
      min (inp.getD (i * 3) 0).val (min (inp.getD (i * 3 + 1) 0).val
        (inp.getD (i * 3 + 2) 0).val) ≤ v.val + 1 ∧
      v.val ≤ max (inp.getD (i * 3) 0).val (max (inp.getD (i * 3 + 1) 0).val
        (inp.getD (i * 3 + 2) 0).val) ∧
      ((299 * (inp.getD (i * 3) 0).val + 587 * (inp.getD (i * 3 + 1) 0).val +
          114 * (inp.getD (i * 3 + 2) 0).val) % 1000 ≠ 0 →
        min (inp.getD (i * 3) 0).val (min (inp.getD (i * 3 + 1) 0).val
          (inp.getD (i * 3 + 2) 0).val) ≤ v.val) ∧
      ((inp.getD (i * 3) 0) = (inp.getD (i * 3 + 1) 0) →
        (inp.getD (i * 3 + 1) 0) = (inp.getD (i * 3 + 2) 0) →
        v.val = (inp.getD (i * 3) 0).val ∨ v.val + 1 = (inp.getD (i * 3) 0).val) := by
  have _hpix : i * 3 + 2 < inp.length := by omega
  refine ⟨greyByte inp i, ?_, ?_⟩
  · rw [convertToGreyscale_getElem?, if_pos ⟨hi, by omega⟩]
  · have hv := toUChar_pixelGrey (inp.getD (i * 3) 0) (inp.getD (i * 3 + 1) 0)
      (inp.getD (i * 3 + 2) 0)
    obtain ⟨t1, t2, t3⟩ := greyLuma_trunc (inp.getD (i * 3) 0) (inp.getD (i * 3 + 1) 0)
      (inp.getD (i * 3 + 2) 0)
    simp only [greyByte]
    rw [hv]
    generalize dtrunc (greyLuma (inp.getD (i * 3) 0) (inp.getD (i * 3 + 1) 0)
      (inp.getD (i * 3 + 2) 0)) = d at *
    generalize (inp.getD (i * 3) 0) = R at *
    generalize (inp.getD (i * 3 + 1) 0) = G at *
    generalize (inp.getD (i * 3 + 2) 0) = B at *
    simp only [lumaFloor] at t1 t2 t3
    refine ⟨by omega, by omega, fun h => ?_, fun h1 h2 => ?_⟩
    · have := t3 h
      omega
    · subst h1
      subst h2
      omega

/-- The amended C20 on the neutral pixel `(254,254,254)`, which is mapped to
253. -/
theorem convertToGreyscale_range_witness :
    ∃ v : Byte, (convertToGreyscale [254, 254, 254] [0] 1)[0]? = some v ∧
      (v.val = 254 ∨ v.val + 1 = 254) ∧ convertToGreyscale [254, 254, 254] [0] 1 = [253] := by
  obtain ⟨v, h1, -, -, -, h5⟩ :=
    convertToGreyscale_range 1 [254, 254, 254] [0] 0 rfl rfl (by decide)
  exact ⟨v, h1, h5 rfl rfl, by decide⟩

/-- C20 (as stated) fails at the neutral pixel `(1,1,1)`: the byte written is 0,
below `min(1,1,1) = 1`, so the pixel is not mapped to itself. -/
theorem convertToGreyscale_range_counterexample :
    convertToGreyscale [1, 1, 1] [0] 1 = [0] ∧ ¬ (min 1 (min 1 1) ≤ (0 : Nat)) := by
  decide

end Prog2
